import Mathlib

/-!
# Stock Higher/Lower: round generation and difficulty calibration

A shallow embedding of the game logic of `src/app/components/StockGame.jsx`
(the `format` members of `METRICS`, `getMetricDiff`, `generateRound`,
`generateAllRounds` and the session handlers of the `StockGame` component), with
numbers read as exact rationals.

Conventions of the embedding:

* a company field holds `null`, `undefined` (also: the field is absent) or a number;
* `Infinity` is a separate value of `JsNum`;
* reading a property of `undefined` raises a `TypeError`, so the samplers return
  `Except JsError _`;
* the built-in `toFixed` is an explicit argument of `Metric.format`;
* a callback registered with `setTimeout` stays in the list `GameState.timers`
  until it runs (the component never cancels one);
* `Math.random` is an explicit argument: every loop iteration receives a `Draw`,
  which fixes the outcome of the random sort and the index of the metric drawn.
-/

namespace StockGame

/-! ## Values -/

/-- A value read from a numeric field of a company record: `null`, `undefined`
(the field is absent) or a number. -/
inductive Val where
  | null
  | undefined
  | num (q : ℚ)
  deriving DecidableEq

namespace Val

/-- The test `v === null || v === undefined`. -/
def isNullish : Val → Bool
  | null => true
  | undefined => true
  | num _ => false

/-- The conversion `ToNumber` used by the relational operators: `null` is `0`,
`undefined` is `NaN` (here `none`). -/
def toNumber : Val → Option ℚ
  | null => some 0
  | undefined => none
  | num q => some q

/-- The comparison `x < y` of JavaScript; a comparison with `NaN` is false. -/
def lt (x y : Val) : Bool :=
  match x.toNumber, y.toNumber with
  | some p, some q => decide (p < q)
  | _, _ => false

/-- The comparison `x > y` of JavaScript. -/
def gt (x y : Val) : Bool := lt y x

/-- The comparison `v < 0`. -/
def isNegative (v : Val) : Bool := lt v (num 0)

end Val

/-- A JavaScript number that is either finite (an exact rational) or `Infinity`. -/
inductive JsNum where
  | fin (q : ℚ)
  | inf
  deriving DecidableEq

namespace JsNum

/-- The comparison `x <= y`. -/
def le : JsNum → JsNum → Prop
  | _, inf => True
  | inf, fin _ => False
  | fin a, fin b => a ≤ b

/-- The comparison `x < y`. -/
def lt : JsNum → JsNum → Prop
  | inf, _ => False
  | fin _, inf => True
  | fin a, fin b => a < b

instance : LE JsNum := ⟨le⟩
instance : LT JsNum := ⟨lt⟩

instance decLe : (x y : JsNum) → Decidable (x ≤ y)
  | fin _, inf => isTrue trivial
  | inf, inf => isTrue trivial
  | inf, fin _ => isFalse id
  | fin a, fin b => inferInstanceAs (Decidable (a ≤ b))

instance decLt : (x y : JsNum) → Decidable (x < y)
  | inf, fin _ => isFalse id
  | inf, inf => isFalse id
  | fin _, inf => isTrue trivial
  | fin a, fin b => inferInstanceAs (Decidable (a < b))

/-- The value `Math.min(x, 2)`, which is always finite. -/
def minTwo : JsNum → ℚ
  | fin q => min q 2
  | inf => 2

/-- The value `Math.abs(x - t)` for a finite `t`. -/
def absSub : JsNum → ℚ → JsNum
  | fin q, t => fin |q - t|
  | inf, _ => inf

end JsNum

/-- The exception a JavaScript function can raise here: reading a property of
`undefined`. -/
inductive JsError where
  | typeError
  deriving DecidableEq

deriving instance DecidableEq for Except

/-! ## Metrics and companies -/

/-- The keys of the five metrics of the registry. -/
inductive MetricKey where
  | roe
  | roa
  | pe
  | pb
  | profitMargin
  deriving DecidableEq

/-- A metric descriptor of the registry. The member `format` is the function
`Metric.format` below; the display-only `hint` is left out. -/
structure Metric where
  key : MetricKey
  label : String
  short : String
  formula : String
  clueKeys : List String
  distractors : List String
  deriving DecidableEq

/-- The registry `METRICS`. -/
def METRICS : List Metric :=
  [ { key := .roe, label := "Return on Equity", short := "ROE",
      formula := "Net Earnings ÷ Total Equity",
      clueKeys := ["earnings", "total_equity"],
      distractors := ["revenue", "total_assets", "total_liabilities"] },
    { key := .roa, label := "Return on Assets", short := "ROA",
      formula := "Net Earnings ÷ Total Assets",
      clueKeys := ["earnings", "total_assets"],
      distractors := ["revenue", "total_equity", "market_cap"] },
    { key := .pe, label := "Price-to-Earnings", short := "P/E",
      formula := "Market Cap ÷ Net Earnings",
      clueKeys := ["market_cap", "earnings"],
      distractors := ["revenue", "total_assets", "total_equity"] },
    { key := .pb, label := "Price-to-Book", short := "P/B",
      formula := "Market Cap ÷ Total Equity",
      clueKeys := ["market_cap", "total_equity"],
      distractors := ["total_assets", "earnings", "total_liabilities"] },
    { key := .profitMargin, label := "Net Profit Margin", short := "Margin",
      formula := "Net Earnings ÷ Revenue",
      clueKeys := ["earnings", "revenue"],
      distractors := ["total_assets", "market_cap", "total_equity"] } ]

/-- A company record; a field that the record does not carry is `undefined`. -/
structure Company where
  ticker : String
  name : String := ""
  sector : String := ""
  earnings : Val := .undefined
  revenue : Val := .undefined
  total_equity : Val := .undefined
  total_assets : Val := .undefined
  total_liabilities : Val := .undefined
  market_cap : Val := .undefined
  roe : Val := .undefined
  roa : Val := .undefined
  pe : Val := .undefined
  pb : Val := .undefined
  profitMargin : Val := .undefined
  deriving DecidableEq

/-- The property read `c[metric.key]`. -/
def Company.get (c : Company) : MetricKey → Val
  | .roe => c.roe
  | .roa => c.roa
  | .pe => c.pe
  | .pb => c.pb
  | .profitMargin => c.profitMargin

/-! ## Difficulty-aware matchmaking -/

/-- The function `getMetricDiff(a, b, metric)`: the first `return Infinity` is the
last branch of the match (one of the values is `null` or `undefined`). -/
def getMetricDiff (a b : Company) (metric : Metric) : JsNum :=
  match a.get metric.key, b.get metric.key with
  | .num va, .num vb =>
    if metric.key = .pe ∧ (va < 0 ∨ vb < 0) then .inf
    else
      let avg := (|va| + |vb|) / 2
      if avg = 0 then .inf
      else .fin (|va - vb| / avg)
  | _, _ => .inf

/-- The outcome of the random choices of one loop iteration of `generateRound`:
the array that `[...companies].sort(() => Math.random() - 0.5)` produces, which
is a rearrangement of its input, and the index
`Math.floor(Math.random() * METRICS.length)`. -/
structure Draw where
  sortRandom : List Company → List Company
  sortRandom_perm : ∀ l, List.Perm (sortRandom l) l
  metricIdx : Fin METRICS.length

/-- The object literal `{ companyA: a, companyB: b, metric, diff, distractorCount }`
held in `best`. -/
structure Candidate where
  companyA : Company
  companyB : Company
  metric : Metric
  diff : JsNum
  distractorCount : Nat
  deriving DecidableEq

/-- The correct answer of a round. -/
inductive Answer where
  | higher
  | lower
  deriving DecidableEq

/-- A round: `best` with its `answer`, and the members `roundNum` and `difficulty`
that `generateAllRounds` adds (`none` while they are not set). -/
structure Round where
  companyA : Company
  companyB : Company
  metric : Metric
  diff : JsNum
  distractorCount : Nat
  answer : Answer
  roundNum : Option Nat := none
  difficulty : Option Nat := none
  deriving DecidableEq

/-- The band `{ min, max }` of a difficulty tier. -/
structure Threshold where
  min : ℚ
  max : JsNum

/-- The table `thresholds` of `generateRound`. -/
def thresholds : List Threshold :=
  [ { min := 1 / 2, max := .inf },
    { min := 15 / 100, max := .fin 1 },
    { min := 1 / 100, max := .fin (1 / 2) } ]

/-- The value `thresholds[difficulty] || thresholds[1]`. -/
def thresholdOf (difficulty : Nat) : Threshold :=
  (thresholds[difficulty]?).getD (thresholds.get ⟨1, by decide⟩)

/-- The value `[1, 2, 3][difficulty] || 2`. -/
def distractorCountOf (difficulty : Nat) : Nat :=
  ([1, 2, 3][difficulty]?).getD 2

/-- The head of a loop iteration of `generateRound`, the same text in both loops:
the random sort, `a = shuffled[0]`, `b = shuffled[1]`, the random metric, the reads
`a[metric.key]` and `b[metric.key]` (a `TypeError` when `a` or `b` is `undefined`)
and the four `continue` tests. `ok none` stands for `continue`. -/
def drawCandidate (companies : List Company) (d : Draw) :
    Except JsError (Option (Company × Company × Metric)) :=
  let shuffled := d.sortRandom companies
  let metric := METRICS.get d.metricIdx
  match shuffled[0]? with
  | none => .error .typeError
  | some a =>
    match shuffled[1]? with
    | none => .error .typeError
    | some b =>
      let va := a.get metric.key
      let vb := b.get metric.key
      if va.isNullish || vb.isNullish then .ok none
      else if va = vb then .ok none
      else if metric.key = .pe ∧ (va.isNegative || vb.isNegative) then .ok none
      else if metric.key = .profitMargin ∧ (va.isNegative || vb.isNegative) then .ok none
      else .ok (some (a, b, metric))

/-- The variables `best` and `bestDiff` of the first loop. -/
structure SearchState where
  best : Option Candidate
  bestDiff : JsNum

/-- One iteration of the first loop of `generateRound`. -/
def firstPassStep (companies : List Company) (th : Threshold) (distractorCount : Nat)
    (s : SearchState) (d : Draw) : Except JsError SearchState :=
  match drawCandidate companies d with
  | .error e => .error e
  | .ok none => .ok s
  | .ok (some (a, b, metric)) =>
    let diff := getMetricDiff a b metric
    if JsNum.fin th.min ≤ diff ∧ diff ≤ th.max then
      let target := (th.min + th.max.minTwo) / 2
      let dist := diff.absSub target
      if dist < s.bestDiff then
        .ok { best := some { companyA := a, companyB := b, metric := metric, diff := diff,
                             distractorCount := distractorCount },
              bestDiff := dist }
      else .ok s
    else .ok s

/-- The first loop of `generateRound`, with `n` iterations left, the next one being
iteration `attempt`. -/
def firstPass (companies : List Company) (th : Threshold) (distractorCount : Nat)
    (draws : Nat → Draw) : Nat → Nat → SearchState → Except JsError SearchState
  | 0, _, s => .ok s
  | n + 1, attempt, s =>
    match firstPassStep companies th distractorCount s (draws attempt) with
    | .error e => .error e
    | .ok s1 => firstPass companies th distractorCount draws n (attempt + 1) s1

/-- The fallback loop of `generateRound`, with `n` iterations left, the next one
using draw `attempt`; it stops (`break`) at the first candidate that passes the
`continue` tests. -/
def fallbackPass (companies : List Company) (distractorCount : Nat)
    (draws : Nat → Draw) : Nat → Nat → Except JsError (Option Candidate)
  | 0, _ => .ok none
  | n + 1, attempt =>
    match drawCandidate companies (draws attempt) with
    | .error e => .error e
    | .ok none => fallbackPass companies distractorCount draws n (attempt + 1)
    | .ok (some (a, b, metric)) =>
      .ok (some { companyA := a, companyB := b, metric := metric,
                  diff := getMetricDiff a b metric, distractorCount := distractorCount })

/-- The tail of `generateRound`: `best.answer = vb > va ? "higher" : "lower"`. -/
def withAnswer (best : Candidate) : Round :=
  let va := best.companyA.get best.metric.key
  let vb := best.companyB.get best.metric.key
  { companyA := best.companyA, companyB := best.companyB, metric := best.metric,
    diff := best.diff, distractorCount := best.distractorCount,
    answer := if vb.gt va then .higher else .lower }

/-- The function `generateRound(companies, difficulty)`. The first loop uses the
draws `0 .. 199`, the fallback loop the draws from `200` on. `ok none` is the
result `null`. -/
def generateRound (companies : List Company) (difficulty : Nat) (draws : Nat → Draw) :
    Except JsError (Option Round) :=
  let th := thresholdOf difficulty
  let distractorCount := distractorCountOf difficulty
  match firstPass companies th distractorCount draws 200 0 { best := none, bestDiff := .inf } with
  | .error e => .error e
  | .ok s =>
    match s.best with
    | some best => .ok (some (withAnswer best))
    | none =>
      match fallbackPass companies distractorCount draws 100 200 with
      | .error e => .error e
      | .ok none => .ok none
      | .ok (some best) => .ok (some (withAnswer best))

/-- The loop of `generateAllRounds`, with `n` iterations left, the next one being
slot `i`; slot `i` draws from `draws i`. -/
def generateAllRoundsLoop (companies : List Company) (draws : Nat → Nat → Draw) :
    Nat → Nat → List Round → Except JsError (List Round)
  | 0, _, rounds => .ok rounds
  | n + 1, i, rounds =>
    let diff := if i < 3 then 0 else if i < 7 then 1 else 2
    match generateRound companies diff (draws i) with
    | .error e => .error e
    | .ok none => generateAllRoundsLoop companies draws n (i + 1) rounds
    | .ok (some round) =>
      generateAllRoundsLoop companies draws n (i + 1)
        (rounds ++ [{ round with roundNum := some (i + 1), difficulty := some diff }])

/-- The function `generateAllRounds(companies, totalRounds)`. -/
def generateAllRounds (companies : List Company) (totalRounds : Nat)
    (draws : Nat → Nat → Draw) : Except JsError (List Round) :=
  generateAllRoundsLoop companies draws totalRounds 0 []

/-! ## The session of the `StockGame` component -/

/-- The state variable `screen`. -/
inductive Screen where
  | start
  | playing
  | results
  deriving DecidableEq

/-- The state variable `phase`. -/
inductive Phase where
  | guessing
  | revealing
  | result
  deriving DecidableEq

/-- An entry `{ guess, isCorrect }` of `answers`. -/
structure AnswerRecord where
  guess : Answer
  isCorrect : Bool
  deriving DecidableEq

/-- A callback registered by `setTimeout` in `handleGuess` that has not run yet,
with the values `g` and `correct` it closes over. -/
structure Timer where
  g : Answer
  correct : Bool
  deriving DecidableEq

/-- The constant `TOTAL_ROUNDS`. -/
def TOTAL_ROUNDS : Nat := 10

/-- The state of the component: its `useState` variables (initial values as
defaults) and the pending timer callbacks, oldest first. -/
structure GameState where
  screen : Screen := .start
  rounds : List Round := []
  currentIdx : Nat := 0
  score : Nat := 0
  highScore : Nat := 0
  answers : List AnswerRecord := []
  phase : Phase := .guessing
  guess : Option Answer := none
  isCorrect : Option Bool := none
  showHint : Bool := false
  timers : List Timer := []

deriving instance DecidableEq for GameState

/-- The value `round = rounds[currentIdx]` (`none` for `undefined`). -/
def GameState.round (s : GameState) : Option Round := s.rounds[s.currentIdx]?

/-- The handler `startGame`; an exception of `generateAllRounds` leaves the handler
before any state is set. -/
def startGame (companies : List Company) (draws : Nat → Nat → Draw) (s : GameState) :
    Except JsError GameState :=
  match generateAllRounds companies TOTAL_ROUNDS draws with
  | .error e => .error e
  | .ok rs =>
    .ok { s with rounds := rs, currentIdx := 0, score := 0, answers := [], phase := .guessing,
                 guess := none, isCorrect := none, showHint := false, screen := .playing }

/-- The handler `handleGuess(g)`, up to the registration of the timer. -/
def handleGuess (g : Answer) (s : GameState) : GameState :=
  match s.round with
  | none => s
  | some round =>
    if s.phase ≠ .guessing then s
    else
      let correct := decide (g = round.answer)
      { s with guess := some g, phase := .revealing, isCorrect := some correct,
               timers := s.timers ++ [{ g := g, correct := correct }] }

/-- The callback of the oldest pending timer runs: `setPhase("result")`,
`if (correct) setScore((s) => s + 1)` and the new entry of `answers`. -/
def timerFires (s : GameState) : GameState :=
  match s.timers with
  | [] => s
  | t :: rest =>
    { s with timers := rest, phase := .result,
             score := if t.correct then s.score + 1 else s.score,
             answers := s.answers ++ [{ guess := t.g, isCorrect := t.correct }] }

/-- The handler `handleNext`. -/
def handleNext (s : GameState) : GameState :=
  if s.currentIdx + 1 ≥ s.rounds.length then
    { s with highScore := max s.highScore (s.score + (if s.isCorrect = some true then 1 else 0)),
             screen := .results }
  else
    { s with currentIdx := s.currentIdx + 1, phase := .guessing, guess := none,
             isCorrect := none, showHint := false }

/-- The handler `handleQuit`. -/
def handleQuit (s : GameState) : GameState :=
  { s with screen := .start }

/-- What can happen to the component: the player presses a button, or the oldest
pending timer runs. -/
inductive Action where
  | start (draws : Nat → Nat → Draw)
  | guess (g : Answer)
  | timeout
  | next
  | quit

/-- One event applied to the component. A button acts only where the component
renders it: start on the start and results screens; on the playing screen with a
current round, quit always, the two guess buttons in phase guessing and the next
button in phase result. -/
def step (companies : List Company) (s : GameState) : Action → GameState
  | .start draws =>
    if s.screen = .start ∨ s.screen = .results then
      match startGame companies draws s with
      | .ok s1 => s1
      | .error _ => s
    else s
  | .guess g =>
    if s.screen = .playing ∧ s.round.isSome ∧ s.phase = .guessing then handleGuess g s else s
  | .timeout => timerFires s
  | .next =>
    if s.screen = .playing ∧ s.round.isSome ∧ s.phase = .result then handleNext s else s
  | .quit =>
    if s.screen = .playing ∧ s.round.isSome then handleQuit s else s

/-- A sequence of events applied to the component, first event first. -/
def run (companies : List Company) (s : GameState) (actions : List Action) : GameState :=
  actions.foldl (step companies) s

/-! ## The `format` member of the metrics -/

/-- The expression `(v * 100).toFixed(d)`: `null * 100` is `0` and `undefined * 100`
is `NaN`, whose `toFixed` is `"NaN"`. The argument `toFixed x d` is the built-in
`x.toFixed(d)` on a finite number `x`. -/
def timesHundredToFixed (toFixed : ℚ → Nat → String) (v : Val) (d : Nat) : String :=
  match v.toNumber with
  | some q => toFixed (q * 100) d
  | none => "NaN"

/-- The method call `v.toFixed(d)`: reading the property `toFixed` of `null` or of
`undefined` raises a `TypeError`. -/
def callToFixed (toFixed : ℚ → Nat → String) (v : Val) (d : Nat) : Except JsError String :=
  match v with
  | .num q => .ok (toFixed q d)
  | .null => .error .typeError
  | .undefined => .error .typeError

/-- The member `format` of the registry entry of `m`, applied to `v`. -/
def Metric.format (toFixed : ℚ → Nat → String) (m : Metric) (v : Val) :
    Except JsError String :=
  match m.key with
  | .roe => .ok (timesHundredToFixed toFixed v 1 ++ "%")
  | .roa => .ok (timesHundredToFixed toFixed v 2 ++ "%")
  | .pe =>
    if v = .null ∨ v.isNegative = true then .ok "N/A"
    else
      match callToFixed toFixed v 1 with
      | .ok str => .ok (str ++ "x")
      | .error e => .error e
  | .pb =>
    match callToFixed toFixed v 2 with
    | .ok str => .ok (str ++ "x")
    | .error e => .error e
  | .profitMargin =>
    if v.isNegative = true then .ok "Negative"
    else .ok (timesHundredToFixed toFixed v 1 ++ "%")

/-! ## Predicates and abbreviations used in the statements -/

/-- A candidate that passes the `continue` tests: both values are numbers, they
differ, and they are not negative when the metric is P/E or profit margin. -/
def Usable (a b : Company) (m : Metric) : Prop :=
  ∃ va vb : ℚ, a.get m.key = .num va ∧ b.get m.key = .num vb ∧ va ≠ vb ∧
    (m.key = .pe ∨ m.key = .profitMargin → 0 ≤ va ∧ 0 ≤ vb)

/-- The candidate `c` is the object built from the draw `d`. -/
def FromDraw (companies : List Company) (dc : Nat) (d : Draw) (c : Candidate) : Prop :=
  drawCandidate companies d = .ok (some (c.companyA, c.companyB, c.metric)) ∧
    c.diff = getMetricDiff c.companyA c.companyB c.metric ∧ c.distractorCount = dc

/-- The test `diff >= min && diff <= max`. -/
def InBand (th : Threshold) (x : JsNum) : Prop := JsNum.fin th.min ≤ x ∧ x ≤ th.max

/-- The tier of slot `i` (0-based): 0 if `i < 3`, 1 if `i < 7`, else 2. -/
def tierOfSlot (i : Nat) : Nat := if i < 3 then 0 else if i < 7 then 1 else 2

/-- The round kept from slot `i`: tagged with `roundNum = i + 1` and the tier of
the slot. -/
def taggedRound (i : Nat) (r : Round) : Round :=
  { r with roundNum := some (i + 1), difficulty := some (tierOfSlot i) }

/-- The score is the number of recorded outcomes that are marked correct. -/
def ScoreMatches (s : GameState) : Prop :=
  s.score = s.answers.countP (fun a => a.isCorrect)

/-! ## Concrete data used in examples -/

/-- The metric `METRICS[2]`, price-to-earnings. -/
def peMetric : Metric := METRICS.get ⟨2, by decide⟩

/-- The company `{ ticker: "A", pe: 25 }`. -/
def companyA25 : Company := { ticker := "A", pe := .num 25 }

/-- The company `{ ticker: "B", pe: 5 }`. -/
def companyB5 : Company := { ticker := "B", pe := .num 5 }

/-- A draw whose sort leaves the array as it is and whose metric is `METRICS[2]`. -/
def drawKeepPe : Draw :=
  { sortRandom := id, sortRandom_perm := fun l => List.Perm.refl l, metricIdx := ⟨2, by decide⟩ }

/-- The pool of the two companies above. -/
def poolAB : List Company := [companyA25, companyB5]

/-- The round that the sampler builds from `poolAB` with `drawKeepPe`. -/
def roundAB : Round :=
  { companyA := companyA25, companyB := companyB5, metric := peMetric, diff := .fin (4 / 3),
    distractorCount := 1, answer := .lower }

/-- A session in which the player starts the game and then, ten times, guesses
"lower", waits for the reveal delay and presses next. -/
def perfectSession : List Action :=
  Action.start (fun _ _ => drawKeepPe) ::
    (List.replicate 10 [Action.guess .lower, Action.timeout, Action.next]).flatten

/-- A draw whose sort leaves the array as it is and whose metric is `METRICS[0]`. -/
def drawKeepRoe : Draw :=
  { sortRandom := id, sortRandom_perm := fun l => List.Perm.refl l, metricIdx := ⟨0, by decide⟩ }

/-- A pool of twenty companies that all have the ROE 0.1; the first has the P/E 25,
the others the P/E 5. -/
def pool20 : List Company :=
  { ticker := "A", roe := .num (1 / 10), pe := .num 25 } ::
    ["B", "C", "D", "E", "F", "G", "H", "I", "J", "K", "L", "M", "N", "O", "P", "Q", "R", "S",
      "T"].map (fun t => { ticker := t, roe := .num (1 / 10), pe := .num 5 })

/-- The round of slot 0 of a session on `poolAB` with `drawKeepPe`. -/
def firstRoundAB : Round :=
  { roundAB with roundNum := some 1, difficulty := some 0 }

/-- The state of the component after the first start of a game on `poolAB` with
`drawKeepPe`. -/
def startedAB : GameState :=
  run poolAB {} [Action.start (fun _ _ => drawKeepPe)]

/-- The metric `METRICS[3]`, price-to-book. -/
def pbMetric : Metric := METRICS.get ⟨3, by decide⟩

/-- A session in which the player starts the game, guesses "lower", quits during
the reveal delay and starts a new game. -/
def quitDuringReveal : List Action :=
  [Action.start (fun _ _ => drawKeepPe), Action.guess .lower, Action.quit,
    Action.start (fun _ _ => drawKeepPe)]

/-- A rendering of `x.toFixed(d)` for an exact rational `x` below `10^21` in absolute
value: `|x|` rounded to `d` decimals, half up, with the sign in front. It is used
in examples only; the statements about `format` hold for every `toFixed`. -/
def toFixedExact (x : ℚ) (d : Nat) : String :=
  let n : Nat := (|x| * 10 ^ d + 1 / 2).floor.toNat
  let digits := toString n
  let padded := String.mk (List.replicate (d + 1 - digits.length) '0') ++ digits
  let whole := padded.take (padded.length - d)
  let frac := padded.drop (padded.length - d)
  (if x < 0 then "-" else "") ++ whole ++ (if d = 0 then "" else "." ++ frac)

/-! ## The winner shown by the component -/

/-- The value `aWins = aVal > bVal` of the component for the round `r`: the panel of
company A is rendered with `isWinner = aWins`, the panel of company B with
`isWinner = !aWins`. -/
def aWins (r : Round) : Bool :=
  (r.companyA.get r.metric.key).gt (r.companyB.get r.metric.key)

/-- The candidate of a round with its two companies swapped. -/
def swappedCandidate (r : Round) : Candidate :=
  { companyA := r.companyB, companyB := r.companyA, metric := r.metric, diff := r.diff,
    distractorCount := r.distractorCount }

/-- The other answer. -/
def Answer.flip : Answer → Answer
  | .higher => .lower
  | .lower => .higher

/-- The round that `generateRound` returns on `poolAB` for the hard tier. -/
def hardRoundAB : Round := { roundAB with distractorCount := 3 }

/-! ## IEEE doubles

The definitions above read the numbers as exact rationals. JavaScript computes with
IEEE 754 binary64 numbers; the definitions below follow `getMetricDiff` and
`generateRound` with that arithmetic: every operation returns the double nearest
to the exact result (ties to the even significand), `Infinity` on overflow. -/

/-- A double: a finite value (given by its exact rational value; the sign of a zero
is not kept), `Infinity`, `-Infinity` or `NaN`. -/
inductive Dbl where
  | fin (q : ℚ)
  | posInf
  | negInf
  | nan
  deriving DecidableEq

/-- The power `2^k` for an integer `k`. -/
def twoPow (k : ℤ) : ℚ :=
  if 0 ≤ k then ((2 ^ k.toNat : ℕ) : ℚ) else 1 / ((2 ^ (-k).toNat : ℕ) : ℚ)

/-- The position of the highest set bit of `n`, found by binary search; it is
`floor (log2 n)` for `1 <= n < 2^65536`. -/
def natLog2 (n : ℕ) : ℕ :=
  [32768, 16384, 8192, 4096, 2048, 1024, 512, 256, 128, 64, 32, 16, 8, 4, 2, 1].foldl
    (fun k b => if 2 ^ (k + b) ≤ n then k + b else k) 0

/-- The integer `floor (log2 x)` of a positive rational whose numerator and
denominator are below `2^65536` (as for every sum, difference and quotient of two
doubles): the difference of the bit positions of numerator and denominator is
either it or one more. -/
def floorLog2 (x : ℚ) : ℤ :=
  let k : ℤ := (natLog2 x.num.natAbs : ℤ) - (natLog2 x.den : ℤ)
  if twoPow k ≤ x then k else k - 1

/-- The integer nearest to `x`, the even one of the two when `x` is half way. -/
def roundHalfEven (x : ℚ) : ℤ :=
  let f := ⌊x⌋
  let r := x - f
  if r < 1 / 2 then f
  else if 1 / 2 < r then f + 1
  else if f % 2 = 0 then f else f + 1

/-- The double nearest to the exact value `x`: the significand has 53 bits, the
least exponent of the unit in the last place is `-1074` (subnormal numbers), and a
result of magnitude `2^1024` or more is an infinity. -/
def roundD (x : ℚ) : Dbl :=
  if x = 0 then .fin 0
  else
    let e := max (floorLog2 |x| - 52) (-1074)
    let r := (roundHalfEven (|x| / twoPow e) : ℚ) * twoPow e
    if twoPow 1024 ≤ |r| then (if x < 0 then .negInf else .posInf)
    else .fin (if x < 0 then -r else r)

namespace Dbl

/-- The negation `-x`. -/
def neg : Dbl → Dbl
  | fin q => fin (-q)
  | posInf => negInf
  | negInf => posInf
  | nan => nan

/-- The value `Math.abs(x)`. -/
def abs : Dbl → Dbl
  | fin q => fin |q|
  | posInf => posInf
  | negInf => posInf
  | nan => nan

/-- The sum `x + y`. -/
def add : Dbl → Dbl → Dbl
  | fin x, fin y => roundD (x + y)
  | fin _, posInf => posInf
  | fin _, negInf => negInf
  | posInf, fin _ => posInf
  | negInf, fin _ => negInf
  | posInf, posInf => posInf
  | negInf, negInf => negInf
  | posInf, negInf => nan
  | negInf, posInf => nan
  | nan, _ => nan
  | _, nan => nan

/-- The difference `x - y`. -/
def sub (x y : Dbl) : Dbl := add x (neg y)

/-- The quotient `x / y`. A zero divisor is taken as `+0`; `getMetricDiff` never
divides by zero. -/
def div : Dbl → Dbl → Dbl
  | fin x, fin y =>
    if y = 0 then (if x = 0 then nan else if 0 < x then posInf else negInf)
    else roundD (x / y)
  | fin _, posInf => fin 0
  | fin _, negInf => fin 0
  | posInf, fin y => if y < 0 then negInf else posInf
  | negInf, fin y => if y < 0 then posInf else negInf
  | posInf, posInf => nan
  | posInf, negInf => nan
  | negInf, posInf => nan
  | negInf, negInf => nan
  | nan, _ => nan
  | _, nan => nan

/-- The comparison `x < y`; a comparison with `NaN` is false. -/
def lt : Dbl → Dbl → Bool
  | fin x, fin y => decide (x < y)
  | fin _, posInf => true
  | negInf, fin _ => true
  | negInf, posInf => true
  | _, _ => false

/-- The comparison `x <= y`; a comparison with `NaN` is false. -/
def le : Dbl → Dbl → Bool
  | fin x, fin y => decide (x ≤ y)
  | fin _, posInf => true
  | negInf, fin _ => true
  | negInf, posInf => true
  | posInf, posInf => true
  | negInf, negInf => true
  | _, _ => false

/-- The value `Math.min(x, y)`. -/
def min (x y : Dbl) : Dbl :=
  match x, y with
  | nan, _ => nan
  | _, nan => nan
  | _, _ => if lt y x then y else x

end Dbl

namespace Double

/-- The function `getMetricDiff(a, b, metric)` in double arithmetic, for companies
whose values are doubles. -/
def getMetricDiff (a b : Company) (metric : Metric) : Dbl :=
  match a.get metric.key, b.get metric.key with
  | .num va, .num vb =>
    if metric.key = .pe ∧ (va < 0 ∨ vb < 0) then .posInf
    else
      let avg := Dbl.div (Dbl.add (Dbl.abs (.fin va)) (Dbl.abs (.fin vb))) (.fin 2)
      if avg = .fin 0 then .posInf
      else Dbl.div (Dbl.abs (Dbl.sub (.fin va) (.fin vb))) avg
  | _, _ => .posInf

/-- The object held in `best`, with a double as `diff`. -/
structure Candidate where
  companyA : Company
  companyB : Company
  metric : Metric
  diff : Dbl
  distractorCount : Nat
  deriving DecidableEq

/-- A round with a double as `diff`. -/
structure Round where
  companyA : Company
  companyB : Company
  metric : Metric
  diff : Dbl
  distractorCount : Nat
  answer : Answer
  roundNum : Option Nat := none
  difficulty : Option Nat := none
  deriving DecidableEq

/-- The band `{ min, max }` of a difficulty tier, in doubles. -/
structure Threshold where
  min : Dbl
  max : Dbl

/-- The table `thresholds` of `generateRound`; a decimal literal is the double
nearest to it. -/
def thresholds : List Threshold :=
  [ { min := roundD (1 / 2), max := .posInf },
    { min := roundD (15 / 100), max := roundD 1 },
    { min := roundD (1 / 100), max := roundD (1 / 2) } ]

/-- The value `thresholds[difficulty] || thresholds[1]`. -/
def thresholdOf (difficulty : Nat) : Threshold :=
  (thresholds[difficulty]?).getD (thresholds.get ⟨1, by decide⟩)

/-- The variables `best` and `bestDiff` of the first loop. -/
structure SearchState where
  best : Option Candidate
  bestDiff : Dbl

/-- One iteration of the first loop of `generateRound`. -/
def firstPassStep (companies : List Company) (th : Threshold) (distractorCount : Nat)
    (s : SearchState) (d : Draw) : Except JsError SearchState :=
  match drawCandidate companies d with
  | .error e => .error e
  | .ok none => .ok s
  | .ok (some (a, b, metric)) =>
    let diff := getMetricDiff a b metric
    if Dbl.le th.min diff = true ∧ Dbl.le diff th.max = true then
      let target := Dbl.div (Dbl.add th.min (Dbl.min th.max (.fin 2))) (.fin 2)
      let dist := Dbl.abs (Dbl.sub diff target)
      if Dbl.lt dist s.bestDiff = true then
        .ok { best := some { companyA := a, companyB := b, metric := metric, diff := diff,
                             distractorCount := distractorCount },
              bestDiff := dist }
      else .ok s
    else .ok s

/-- The first loop of `generateRound`, with `n` iterations left, the next one being
iteration `attempt`. -/
def firstPass (companies : List Company) (th : Threshold) (distractorCount : Nat)
    (draws : Nat → Draw) : Nat → Nat → SearchState → Except JsError SearchState
  | 0, _, s => .ok s
  | n + 1, attempt, s =>
    match firstPassStep companies th distractorCount s (draws attempt) with
    | .error e => .error e
    | .ok s1 => firstPass companies th distractorCount draws n (attempt + 1) s1

/-- The fallback loop of `generateRound`, with `n` iterations left, the next one
using draw `attempt`. -/
def fallbackPass (companies : List Company) (distractorCount : Nat)
    (draws : Nat → Draw) : Nat → Nat → Except JsError (Option Candidate)
  | 0, _ => .ok none
  | n + 1, attempt =>
    match drawCandidate companies (draws attempt) with
    | .error e => .error e
    | .ok none => fallbackPass companies distractorCount draws n (attempt + 1)
    | .ok (some (a, b, metric)) =>
      .ok (some { companyA := a, companyB := b, metric := metric,
                  diff := getMetricDiff a b metric, distractorCount := distractorCount })

/-- The tail of `generateRound`: `best.answer = vb > va ? "higher" : "lower"`. -/
def withAnswer (best : Candidate) : Round :=
  let va := best.companyA.get best.metric.key
  let vb := best.companyB.get best.metric.key
  { companyA := best.companyA, companyB := best.companyB, metric := best.metric,
    diff := best.diff, distractorCount := best.distractorCount,
    answer := if vb.gt va then .higher else .lower }

/-- The function `generateRound(companies, difficulty)` in double arithmetic. -/
def generateRound (companies : List Company) (difficulty : Nat) (draws : Nat → Draw) :
    Except JsError (Option Round) :=
  let th := thresholdOf difficulty
  let distractorCount := distractorCountOf difficulty
  match firstPass companies th distractorCount draws 200 0 { best := none, bestDiff := .posInf } with
  | .error e => .error e
  | .ok s =>
    match s.best with
    | some best => .ok (some (withAnswer best))
    | none =>
      match fallbackPass companies distractorCount draws 100 200 with
      | .error e => .error e
      | .ok none => .ok none
      | .ok (some best) => .ok (some (withAnswer best))

end Double

/-! ## Concrete doubles used in examples -/

/-- The least positive double, `5e-324`. -/
def tinyDouble : ℚ := twoPow (-1074)

/-- The metric `METRICS[0]`, return on equity. -/
def roeMetric : Metric := METRICS.get ⟨0, by decide⟩

/-- A company with the ROE `5e-324` and the P/E 100. -/
def companyTiny : Company := { ticker := "A", roe := .num tinyDouble, pe := .num 100 }

/-- A company with the ROE 0 and the P/E 99. -/
def companyZero : Company := { ticker := "B", roe := .num 0, pe := .num 99 }

/-- The pool of the two companies above. -/
def poolTiny : List Company := [companyTiny, companyZero]

/-- The candidate that the draws on `poolTiny` yield with the ROE metric. -/
def tinyRoeCandidate : Double.Candidate :=
  { companyA := companyTiny, companyB := companyZero, metric := roeMetric,
    diff := Double.getMetricDiff companyTiny companyZero roeMetric, distractorCount := 1 }

/-- The candidate that the draws on `poolTiny` yield with the P/E metric. -/
def tinyPeCandidate : Double.Candidate :=
  { companyA := companyTiny, companyB := companyZero, metric := peMetric,
    diff := Double.getMetricDiff companyTiny companyZero peMetric, distractorCount := 1 }

/-- Draws that keep the order of the pool, with the ROE metric in the 200 attempts
of the first loop and the P/E metric afterwards. -/
def drawsRoeThenPe (i : Nat) : Draw := if i < 200 then drawKeepRoe else drawKeepPe

/-! ## Facts about `getMetricDiff` -/

theorem getMetricDiff_of_nums (a b : Company) (m : Metric) (va vb : ℚ)
    (ha : a.get m.key = .num va) (hb : b.get m.key = .num vb) :
    getMetricDiff a b m =
      if m.key = .pe ∧ (va < 0 ∨ vb < 0) then .inf
      else if (|va| + |vb|) / 2 = 0 then .inf
      else .fin (|va - vb| / ((|va| + |vb|) / 2)) := by
  simp only [getMetricDiff, ha, hb]

theorem getMetricDiff_of_nullish (a b : Company) (m : Metric)
    (h : (a.get m.key).isNullish = true ∨ (b.get m.key).isNullish = true) :
    getMetricDiff a b m = .inf := by
  unfold getMetricDiff
  cases ha : a.get m.key <;> cases hb : b.get m.key <;> simp_all [Val.isNullish]

/-- C1: `getMetricDiff(a, b, m)` is `Infinity` when one of the two values is `null`
or `undefined`, when the metric is P/E and one of them is negative, or when the
average of their absolute values is zero; in every other case it is
`|va - vb| / ((|va| + |vb|) / 2)`. For the P/E values 25 and 5 it is `4/3`. -/
theorem getMetricDiff_cases (a b : Company) (m : Metric) :
    ((a.get m.key).isNullish = true ∨ (b.get m.key).isNullish = true →
      getMetricDiff a b m = .inf) ∧
    (∀ va vb : ℚ, a.get m.key = .num va → b.get m.key = .num vb →
      (m.key = .pe ∧ (va < 0 ∨ vb < 0) → getMetricDiff a b m = .inf) ∧
      ((|va| + |vb|) / 2 = 0 → getMetricDiff a b m = .inf) ∧
      (¬ (m.key = .pe ∧ (va < 0 ∨ vb < 0)) → (|va| + |vb|) / 2 ≠ 0 →
        getMetricDiff a b m = .fin (|va - vb| / ((|va| + |vb|) / 2)))) ∧
    (m.key = .pe → a.pe = .num 25 → b.pe = .num 5 → getMetricDiff a b m = .fin (4 / 3)) := by
  refine ⟨getMetricDiff_of_nullish a b m, ?_, ?_⟩
  · intro va vb ha hb
    rw [getMetricDiff_of_nums a b m va vb ha hb]
    refine ⟨fun h => by rw [if_pos h], fun h => ?_, fun h1 h2 => by rw [if_neg h1, if_neg h2]⟩
    by_cases h1 : m.key = .pe ∧ (va < 0 ∨ vb < 0)
    · rw [if_pos h1]
    · rw [if_neg h1, if_pos h]
  · intro hk ha hb
    have ha1 : a.get m.key = .num 25 := by rw [hk]; exact ha
    have hb1 : b.get m.key = .num 5 := by rw [hk]; exact hb
    rw [getMetricDiff_of_nums a b m 25 5 ha1 hb1]
    norm_num

/-- Witness of C1: the companies `{ ticker: "A", pe: 25 }` and `{ ticker: "B", pe: 5 }`
with the P/E metric score `4/3`. -/
theorem getMetricDiff_cases_witness :
    getMetricDiff companyA25 companyB5 peMetric = .fin (4 / 3) :=
  (getMetricDiff_cases companyA25 companyB5 peMetric).2.2 rfl rfl rfl

/-- C2: `getMetricDiff` is symmetric in its two company arguments. -/
theorem getMetricDiff_symm (a b : Company) (m : Metric) :
    getMetricDiff a b m = getMetricDiff b a m := by
  by_cases h : (a.get m.key).isNullish = true ∨ (b.get m.key).isNullish = true
  · rw [getMetricDiff_of_nullish a b m h, getMetricDiff_of_nullish b a m h.symm]
  · cases ha : a.get m.key with
    | null => exact absurd (Or.inl (by rw [ha]; rfl)) h
    | undefined => exact absurd (Or.inl (by rw [ha]; rfl)) h
    | num va =>
      cases hb : b.get m.key with
      | null => exact absurd (Or.inr (by rw [hb]; rfl)) h
      | undefined => exact absurd (Or.inr (by rw [hb]; rfl)) h
      | num vb =>
        rw [getMetricDiff_of_nums a b m va vb ha hb, getMetricDiff_of_nums b a m vb va hb ha,
          abs_sub_comm va vb, add_comm |va| |vb|]
        simp only [or_comm]

/-! ## Facts about one loop iteration -/

theorem Val.isNegative_num (q : ℚ) : (Val.num q).isNegative = decide (q < 0) := by
  simp [Val.isNegative, Val.lt, Val.toNumber]

theorem Val.gt_num (p q : ℚ) : (Val.num p).gt (Val.num q) = decide (q < p) := by
  simp [Val.gt, Val.lt, Val.toNumber]

theorem drawCandidate_some {companies : List Company} {d : Draw} {a b : Company} {m : Metric}
    (h : drawCandidate companies d = .ok (some (a, b, m))) :
    (d.sortRandom companies)[0]? = some a ∧ (d.sortRandom companies)[1]? = some b ∧
      m = METRICS.get d.metricIdx ∧ Usable a b m := by
  unfold drawCandidate at h
  simp only at h
  split at h
  · cases h
  · rename_i a0 h0
    split at h
    · cases h
    · rename_i b0 h1
      split_ifs at h with c1 c2 c3 c4
      · cases h
      · cases h
      · cases h
      · cases h
      · simp only [Except.ok.injEq, Option.some.injEq, Prod.mk.injEq] at h
        obtain ⟨rfl, rfl, rfl⟩ := h
        refine ⟨h0, h1, rfl, ?_⟩
        cases ha : a0.get (METRICS.get d.metricIdx).key with
        | null => exact absurd (by rw [ha]; rfl) c1
        | undefined => exact absurd (by rw [ha]; rfl) c1
        | num va =>
          cases hb : b0.get (METRICS.get d.metricIdx).key with
          | null => exact absurd (by rw [ha, hb]; rfl) c1
          | undefined => exact absurd (by rw [ha, hb]; rfl) c1
          | num vb =>
            refine ⟨va, vb, ha, hb, ?_, ?_⟩
            · intro hv
              exact c2 (by rw [ha, hb, hv])
            · simp only [ha, hb, Val.isNegative_num, Bool.or_eq_true, decide_eq_true_eq,
                not_and, not_or, not_lt] at c3 c4
              rintro (hk | hk)
              · exact c3 hk
              · exact c4 hk

theorem getMetricDiff_of_usable {a b : Company} {m : Metric} (h : Usable a b m) :
    ∃ va vb : ℚ, a.get m.key = .num va ∧ b.get m.key = .num vb ∧ va ≠ vb ∧
      getMetricDiff a b m = .fin (|va - vb| / ((|va| + |vb|) / 2)) := by
  obtain ⟨va, vb, ha, hb, hne, hneg⟩ := h
  refine ⟨va, vb, ha, hb, hne, ?_⟩
  rw [getMetricDiff_of_nums a b m va vb ha hb]
  have h1 : ¬ (m.key = .pe ∧ (va < 0 ∨ vb < 0)) := by
    rintro ⟨hk, hlt⟩
    have := hneg (Or.inl hk)
    rcases hlt with hlt | hlt
    · exact absurd this.1 (not_le.mpr hlt)
    · exact absurd this.2 (not_le.mpr hlt)
  have h2 : (|va| + |vb|) / 2 ≠ 0 := by
    intro h0
    have hsum : |va| + |vb| = 0 := by linarith
    have ha0 : |va| = 0 := by linarith [abs_nonneg va, abs_nonneg vb]
    have hb0 : |vb| = 0 := by linarith [abs_nonneg va, abs_nonneg vb]
    exact hne (by rw [abs_eq_zero.mp ha0, abs_eq_zero.mp hb0])
  rw [if_neg h1, if_neg h2]

theorem drawCandidate_error_of_short {companies : List Company} (h : companies.length < 2)
    (d : Draw) : drawCandidate companies d = .error .typeError := by
  have hlen : (d.sortRandom companies).length < 2 := by
    rw [(d.sortRandom_perm companies).length_eq]; exact h
  unfold drawCandidate
  simp only
  split
  · rfl
  · split
    · rfl
    · rename_i b0 h1
      have := (List.getElem?_eq_some.mp h1).1
      omega

theorem drawCandidate_ok_of_long {companies : List Company} (h : 2 ≤ companies.length)
    (d : Draw) : ∃ r, drawCandidate companies d = .ok r := by
  have hlen : 2 ≤ (d.sortRandom companies).length := by
    rw [(d.sortRandom_perm companies).length_eq]; exact h
  unfold drawCandidate
  simp only
  rw [List.getElem?_eq_getElem (by omega : 0 < (d.sortRandom companies).length),
    List.getElem?_eq_getElem (by omega : 1 < (d.sortRandom companies).length)]
  simp only
  split_ifs <;> exact ⟨_, rfl⟩

theorem length_of_drawCandidate_some {companies : List Company} {d : Draw} {a b : Company}
    {m : Metric} (h : drawCandidate companies d = .ok (some (a, b, m))) :
    2 ≤ companies.length := by
  by_contra hlt
  rw [drawCandidate_error_of_short (by omega) d] at h
  cases h

/-! ## Facts about the two loops of `generateRound` -/

theorem firstPassStep_ok {companies : List Company} {th : Threshold} {dc : Nat}
    {s s1 : SearchState} {d : Draw} (h : firstPassStep companies th dc s d = .ok s1) :
    s1 = s ∨ ∃ c, s1.best = some c ∧ FromDraw companies dc d c ∧ InBand th c.diff ∧
      s1.bestDiff = c.diff.absSub ((th.min + th.max.minTwo) / 2) ∧ s1.bestDiff < s.bestDiff := by
  unfold firstPassStep at h
  split at h
  · cases h
  · simp only [Except.ok.injEq] at h
    exact Or.inl h.symm
  · rename_i a b m hd
    simp only at h
    split_ifs at h with hband hlt
    · simp only [Except.ok.injEq] at h
      subst h
      exact Or.inr ⟨_, rfl, ⟨hd, rfl, rfl⟩, hband, rfl, hlt⟩
    · simp only [Except.ok.injEq] at h
      exact Or.inl h.symm
    · simp only [Except.ok.injEq] at h
      exact Or.inl h.symm

theorem firstPassStep_finds {companies : List Company} {th : Threshold} {dc : Nat}
    {s s1 : SearchState} {d : Draw} (h : firstPassStep companies th dc s d = .ok s1)
    (hJ : s.best = none → s.bestDiff = .inf) :
    (s1.best = none → s1.bestDiff = .inf) ∧ (s.best ≠ none → s1.best ≠ none) ∧
      (∀ a b m, drawCandidate companies d = .ok (some (a, b, m)) →
        InBand th (getMetricDiff a b m) → s1.best ≠ none) := by
  refine ⟨?_, ?_, ?_⟩
  · rcases firstPassStep_ok h with rfl | ⟨c, hc, -⟩
    · exact hJ
    · intro hn; rw [hc] at hn; cases hn
  · rcases firstPassStep_ok h with rfl | ⟨c, hc, -⟩
    · exact id
    · intro _ hn; rw [hc] at hn; cases hn
  · intro a b m hd hband
    obtain ⟨va, vb, -, -, -, hfin⟩ := getMetricDiff_of_usable (drawCandidate_some hd).2.2.2
    unfold firstPassStep at h
    rw [hd] at h
    simp only at h
    have hband1 : JsNum.fin th.min ≤ getMetricDiff a b m ∧ getMetricDiff a b m ≤ th.max := hband
    rw [if_pos hband1] at h
    split_ifs at h with hlt
    · simp only [Except.ok.injEq] at h
      subst h
      simp
    · simp only [Except.ok.injEq] at h
      subst h
      intro hn
      apply hlt
      rw [hJ hn, hfin]
      exact trivial

theorem firstPassStep_total {companies : List Company} (hlen : 2 ≤ companies.length)
    (th : Threshold) (dc : Nat) (s : SearchState) (d : Draw) :
    ∃ s1, firstPassStep companies th dc s d = .ok s1 := by
  obtain ⟨r, hr⟩ := drawCandidate_ok_of_long hlen d
  unfold firstPassStep
  rw [hr]
  rcases r with _ | ⟨a, b, m⟩
  · exact ⟨_, rfl⟩
  · simp only
    split_ifs <;> exact ⟨_, rfl⟩

theorem firstPass_total {companies : List Company} (hlen : 2 ≤ companies.length)
    (th : Threshold) (dc : Nat) (draws : Nat → Draw) :
    ∀ (n k : Nat) (s : SearchState), ∃ s1, firstPass companies th dc draws n k s = .ok s1 := by
  intro n
  induction n with
  | zero => intro k s; exact ⟨s, rfl⟩
  | succ n ih =>
    intro k s
    obtain ⟨s1, h1⟩ := firstPassStep_total hlen th dc s (draws k)
    obtain ⟨s2, h2⟩ := ih (k + 1) s1
    refine ⟨s2, ?_⟩
    rw [firstPass, h1]
    exact h2

theorem firstPass_best {companies : List Company} {th : Threshold} {dc : Nat}
    {draws : Nat → Draw} :
    ∀ (n k : Nat) (s s1 : SearchState), firstPass companies th dc draws n k s = .ok s1 →
      ∀ c, s1.best = some c → s.best = some c ∨
        ∃ i, k ≤ i ∧ i < k + n ∧ FromDraw companies dc (draws i) c ∧ InBand th c.diff := by
  intro n
  induction n with
  | zero =>
    intro k s s1 h c hc
    simp only [firstPass, Except.ok.injEq] at h
    subst h
    exact Or.inl hc
  | succ n ih =>
    intro k s s1 h c hc
    rw [firstPass] at h
    split at h
    · cases h
    · rename_i s2 h2
      rcases ih (k + 1) s2 s1 h c hc with h3 | ⟨i, hi1, hi2, hi3⟩
      · rcases firstPassStep_ok h2 with rfl | ⟨c2, hc2, hfrom, hband, -⟩
        · exact Or.inl h3
        · rw [hc2] at h3
          cases h3
          exact Or.inr ⟨k, le_refl k, by omega, hfrom, hband⟩
      · exact Or.inr ⟨i, by omega, by omega, hi3⟩

theorem firstPass_finds {companies : List Company} {th : Threshold} {dc : Nat}
    {draws : Nat → Draw} :
    ∀ (n k : Nat) (s s1 : SearchState), firstPass companies th dc draws n k s = .ok s1 →
      (s.best = none → s.bestDiff = .inf) →
      (s1.best = none → s1.bestDiff = .inf) ∧ (s.best ≠ none → s1.best ≠ none) ∧
        (∀ i, k ≤ i → i < k + n → ∀ a b m,
          drawCandidate companies (draws i) = .ok (some (a, b, m)) →
          InBand th (getMetricDiff a b m) → s1.best ≠ none) := by
  intro n
  induction n with
  | zero =>
    intro k s s1 h hJ
    simp only [firstPass, Except.ok.injEq] at h
    subst h
    exact ⟨hJ, id, fun i h1 h2 => by omega⟩
  | succ n ih =>
    intro k s s1 h hJ
    rw [firstPass] at h
    split at h
    · cases h
    · rename_i s2 h2
      obtain ⟨hJ2, hkeep2, hfind2⟩ := firstPassStep_finds h2 hJ
      obtain ⟨hJ1, hkeep1, hfind1⟩ := ih (k + 1) s2 s1 h hJ2
      refine ⟨hJ1, fun hs => hkeep1 (hkeep2 hs), ?_⟩
      intro i hi1 hi2 a b m hd hband
      by_cases hik : i = k
      · subst hik
        exact hkeep1 (hfind2 a b m hd hband)
      · exact hfind1 i (by omega) (by omega) a b m hd hband

theorem fallbackPass_some {companies : List Company} {dc : Nat} {draws : Nat → Draw} :
    ∀ (n k : Nat) (c : Candidate), fallbackPass companies dc draws n k = .ok (some c) →
      ∃ i, k ≤ i ∧ i < k + n ∧ FromDraw companies dc (draws i) c ∧
        ∀ j, k ≤ j → j < i → drawCandidate companies (draws j) = .ok none := by
  intro n
  induction n with
  | zero => intro k c h; cases h
  | succ n ih =>
    intro k c h
    rw [fallbackPass] at h
    split at h
    · cases h
    · rename_i hd
      obtain ⟨i, hi1, hi2, hi3, hi4⟩ := ih (k + 1) c h
      refine ⟨i, by omega, by omega, hi3, ?_⟩
      intro j hj1 hj2
      by_cases hjk : j = k
      · rw [hjk]; exact hd
      · exact hi4 j (by omega) hj2
    · rename_i a b m hd
      simp only [Except.ok.injEq, Option.some.injEq] at h
      subst h
      exact ⟨k, le_refl k, by omega, ⟨hd, rfl, rfl⟩, fun j h1 h2 => by omega⟩

/-- A round that `generateRound` returns is `best` with its answer, where `best`
was built in the first loop from an in-band draw, or in the fallback loop after
a first loop that kept nothing. -/
theorem generateRound_some {companies : List Company} {t : Nat} {draws : Nat → Draw}
    {r : Round} (h : generateRound companies t draws = .ok (some r)) :
    ∃ c, r = withAnswer c ∧
      ((∃ i, i < 200 ∧ FromDraw companies (distractorCountOf t) (draws i) c ∧
          InBand (thresholdOf t) c.diff) ∨
       (∃ i, 200 ≤ i ∧ i < 300 ∧ FromDraw companies (distractorCountOf t) (draws i) c)) := by
  unfold generateRound at h
  simp only at h
  split at h
  · cases h
  · rename_i s hs
    split at h
    · rename_i best hbest
      simp only [Except.ok.injEq, Option.some.injEq] at h
      refine ⟨best, h.symm, Or.inl ?_⟩
      rcases firstPass_best 200 0 _ s hs best hbest with h0 | ⟨i, -, hi, hfrom, hband⟩
      · cases h0
      · exact ⟨i, by omega, hfrom, hband⟩
    · split at h
      · cases h
      · cases h
      · rename_i best hbest
        simp only [Except.ok.injEq, Option.some.injEq] at h
        obtain ⟨i, hi1, hi2, hfrom, -⟩ := fallbackPass_some 100 200 best hbest
        exact ⟨best, h.symm, Or.inr ⟨i, hi1, by omega, hfrom⟩⟩

theorem generateRound_usable {companies : List Company} {t : Nat} {draws : Nat → Draw}
    {r : Round} (h : generateRound companies t draws = .ok (some r)) :
    ∃ d, drawCandidate companies d = .ok (some (r.companyA, r.companyB, r.metric)) ∧
      r.diff = getMetricDiff r.companyA r.companyB r.metric ∧
      r.distractorCount = distractorCountOf t ∧
      r.answer =
        if (r.companyB.get r.metric.key).gt (r.companyA.get r.metric.key) then .higher
        else .lower := by
  obtain ⟨c, rfl, hc⟩ := generateRound_some h
  rcases hc with ⟨i, -, ⟨h1, h2, h3⟩, -⟩ | ⟨i, -, -, ⟨h1, h2, h3⟩⟩
  · exact ⟨draws i, h1, h2, h3, rfl⟩
  · exact ⟨draws i, h1, h2, h3, rfl⟩

theorem generateRound_poolAB :
    generateRound poolAB 0 (fun _ => drawKeepPe) = .ok (some roundAB) := by
  decide!

/-! ## The claims about a round that `generateRound` returns -/

/-- C3: for every round that `generateRound` returns, the answer is "higher" if the
value of company B for the round's metric is strictly greater than the value of
company A, and "lower" otherwise. -/
theorem generateRound_answer (companies : List Company) (t : Nat) (draws : Nat → Draw)
    (r : Round) (h : generateRound companies t draws = .ok (some r)) :
    ∃ va vb : ℚ, r.companyA.get r.metric.key = .num va ∧ r.companyB.get r.metric.key = .num vb ∧
      (va < vb → r.answer = .higher) ∧ (¬ va < vb → r.answer = .lower) := by
  obtain ⟨d, hd, -, -, hans⟩ := generateRound_usable h
  obtain ⟨va, vb, ha, hb, -, -⟩ := (drawCandidate_some hd).2.2.2
  refine ⟨va, vb, ha, hb, ?_, ?_⟩
  · intro hlt
    rw [hans, ha, hb, Val.gt_num, if_pos (decide_eq_true hlt)]
  · intro hlt
    rw [hans, ha, hb, Val.gt_num, if_neg (by simpa using hlt)]

/-- Witness of C3: the round built from the companies with P/E 25 and 5 has the
answer "lower". -/
theorem generateRound_answer_witness :
    generateRound poolAB 0 (fun _ => drawKeepPe) = .ok (some roundAB) ∧
      ∃ va vb : ℚ, roundAB.companyA.get roundAB.metric.key = .num va ∧
        roundAB.companyB.get roundAB.metric.key = .num vb ∧
        (va < vb → roundAB.answer = .higher) ∧ (¬ va < vb → roundAB.answer = .lower) :=
  ⟨generateRound_poolAB,
    generateRound_answer poolAB 0 (fun _ => drawKeepPe) roundAB generateRound_poolAB⟩

/-- C4: a round that `generateRound` returns, from the first loop or from the
fallback loop, has a number (not `null`, not `undefined`) as the value of its metric
for both companies, and the two numbers differ; two companies with the same ROE
are never returned as a round on the ROE metric. -/
theorem generateRound_values_differ (companies : List Company) (t : Nat) (draws : Nat → Draw)
    (r : Round) (h : generateRound companies t draws = .ok (some r)) :
    (∃ va vb : ℚ, r.companyA.get r.metric.key = .num va ∧
        r.companyB.get r.metric.key = .num vb ∧ va ≠ vb) ∧
      (r.metric.key = .roe → r.companyA.roe ≠ r.companyB.roe) := by
  obtain ⟨d, hd, -⟩ := generateRound_usable h
  obtain ⟨va, vb, ha, hb, hne, -⟩ := (drawCandidate_some hd).2.2.2
  refine ⟨⟨va, vb, ha, hb, hne⟩, ?_⟩
  intro hk heq
  rw [hk] at ha hb
  have ha1 : r.companyA.roe = .num va := ha
  have hb1 : r.companyB.roe = .num vb := hb
  rw [ha1, hb1] at heq
  exact hne (Val.num.inj heq)

/-- Witness of C4: the round built from the companies with P/E 25 and 5. -/
theorem generateRound_values_differ_witness :
    generateRound poolAB 0 (fun _ => drawKeepPe) = .ok (some roundAB) ∧
      (∃ va vb : ℚ, roundAB.companyA.get roundAB.metric.key = .num va ∧
        roundAB.companyB.get roundAB.metric.key = .num vb ∧ va ≠ vb) :=
  ⟨generateRound_poolAB,
    (generateRound_values_differ poolAB 0 (fun _ => drawKeepPe) roundAB generateRound_poolAB).1⟩

/-- C5: for a pool whose tickers are pairwise distinct, whatever the random draws
(each sort yields a rearrangement of the pool), the two companies of a round that
`generateRound` returns have different tickers. A round is only returned from a
pool of at least two companies. -/
theorem generateRound_companies_distinct (companies : List Company) (t : Nat)
    (draws : Nat → Draw) (r : Round)
    (hnodup : (companies.map Company.ticker).Nodup)
    (h : generateRound companies t draws = .ok (some r)) :
    r.companyA.ticker ≠ r.companyB.ticker ∧ 2 ≤ companies.length := by
  obtain ⟨d, hd, -⟩ := generateRound_usable h
  refine ⟨?_, length_of_drawCandidate_some hd⟩
  obtain ⟨h0, h1, -, -⟩ := drawCandidate_some hd
  have hperm : ((d.sortRandom companies).map Company.ticker).Nodup :=
    ((d.sortRandom_perm companies).map Company.ticker).nodup_iff.mpr hnodup
  obtain ⟨hlt0, ha⟩ := List.getElem?_eq_some.mp h0
  obtain ⟨hlt1, hb⟩ := List.getElem?_eq_some.mp h1
  intro heq
  have hl0 : 0 < ((d.sortRandom companies).map Company.ticker).length := by
    rw [List.length_map]; exact hlt0
  have hl1 : 1 < ((d.sortRandom companies).map Company.ticker).length := by
    rw [List.length_map]; exact hlt1
  have hinj := List.nodup_iff_injective_get.mp hperm
  have hidx : (⟨0, hl0⟩ : Fin ((d.sortRandom companies).map Company.ticker).length) = ⟨1, hl1⟩ :=
    hinj (by simp only [List.get_eq_getElem, List.getElem_map, ha, hb, heq])
  exact absurd (Fin.mk.inj hidx) (by decide)

/-- Witness of C5: the pool of the companies "A" and "B". -/
theorem generateRound_companies_distinct_witness :
    (poolAB.map Company.ticker).Nodup ∧
      generateRound poolAB 0 (fun _ => drawKeepPe) = .ok (some roundAB) ∧
      roundAB.companyA.ticker ≠ roundAB.companyB.ticker :=
  ⟨by decide, generateRound_poolAB,
    (generateRound_companies_distinct poolAB 0 (fun _ => drawKeepPe) roundAB (by decide)
      generateRound_poolAB).1⟩

/-- C6: for a round that `generateRound` returns (first loop or fallback) whose
metric is P/E or profit margin, neither company has a negative value of that
metric. -/
theorem generateRound_ratio_nonneg (companies : List Company) (t : Nat) (draws : Nat → Draw)
    (r : Round) (h : generateRound companies t draws = .ok (some r))
    (hk : r.metric.key = .pe ∨ r.metric.key = .profitMargin) :
    ∃ va vb : ℚ, r.companyA.get r.metric.key = .num va ∧
      r.companyB.get r.metric.key = .num vb ∧ 0 ≤ va ∧ 0 ≤ vb ∧
      (r.companyA.get r.metric.key).isNegative = false ∧
      (r.companyB.get r.metric.key).isNegative = false := by
  obtain ⟨d, hd, -⟩ := generateRound_usable h
  obtain ⟨va, vb, ha, hb, -, hneg⟩ := (drawCandidate_some hd).2.2.2
  obtain ⟨h1, h2⟩ := hneg hk
  refine ⟨va, vb, ha, hb, h1, h2, ?_, ?_⟩
  · rw [ha, Val.isNegative_num]; exact decide_eq_false (not_lt.mpr h1)
  · rw [hb, Val.isNegative_num]; exact decide_eq_false (not_lt.mpr h2)

/-- Witness of C6: the P/E round built from the companies with P/E 25 and 5. -/
theorem generateRound_ratio_nonneg_witness :
    generateRound poolAB 0 (fun _ => drawKeepPe) = .ok (some roundAB) ∧
      (roundAB.metric.key = .pe ∨ roundAB.metric.key = .profitMargin) ∧
      ∃ va vb : ℚ, roundAB.companyA.get roundAB.metric.key = .num va ∧
        roundAB.companyB.get roundAB.metric.key = .num vb ∧ 0 ≤ va ∧ 0 ≤ vb ∧
        (roundAB.companyA.get roundAB.metric.key).isNegative = false ∧
        (roundAB.companyB.get roundAB.metric.key).isNegative = false :=
  ⟨generateRound_poolAB, Or.inl rfl,
    generateRound_ratio_nonneg poolAB 0 (fun _ => drawKeepPe) roundAB generateRound_poolAB
      (Or.inl rfl)⟩

/-! ## Pools of fewer than two companies -/

theorem firstPass_error_of_short {companies : List Company} (hlen : companies.length < 2)
    (th : Threshold) (dc : Nat) (draws : Nat → Draw) (n k : Nat) (s : SearchState) :
    firstPass companies th dc draws (n + 1) k s = .error .typeError := by
  rw [firstPass, firstPassStep, drawCandidate_error_of_short hlen]

theorem generateRound_error_of_short {companies : List Company} (hlen : companies.length < 2)
    (t : Nat) (draws : Nat → Draw) : generateRound companies t draws = .error .typeError := by
  unfold generateRound
  simp only
  rw [firstPass_error_of_short hlen]

theorem generateAllRounds_error_of_short {companies : List Company}
    (hlen : companies.length < 2) (n : Nat) (draws : Nat → Nat → Draw) :
    generateAllRounds companies (n + 1) draws = .error .typeError := by
  unfold generateAllRounds
  rw [generateAllRoundsLoop]
  simp only [generateRound_error_of_short hlen]

theorem generateRound_total {companies : List Company} (hlen : 2 ≤ companies.length)
    (t : Nat) (draws : Nat → Draw) : ∃ r, generateRound companies t draws = .ok r := by
  unfold generateRound
  simp only
  obtain ⟨s, hs⟩ := firstPass_total hlen (thresholdOf t) (distractorCountOf t) draws 200 0
    { best := none, bestDiff := .inf }
  rw [hs]
  simp only
  split
  · exact ⟨_, rfl⟩
  · have hfb : ∀ (n k : Nat), ∃ c,
        fallbackPass companies (distractorCountOf t) draws n k = .ok c := by
      intro n
      induction n with
      | zero => intro k; exact ⟨none, rfl⟩
      | succ n ih =>
        intro k
        obtain ⟨c, hc⟩ := drawCandidate_ok_of_long hlen (draws k)
        rw [fallbackPass, hc]
        rcases c with _ | ⟨a, b, m⟩
        · exact ih (k + 1)
        · exact ⟨_, rfl⟩
    obtain ⟨c, hc⟩ := hfb 100 200
    rw [hc]
    rcases c with _ | c
    · exact ⟨_, rfl⟩
    · exact ⟨_, rfl⟩

/-- C7, as the code behaves: on the empty pool and on a pool of one company,
`generateRound` raises a `TypeError` (the read `a[metric.key]` or `b[metric.key]`
of an `undefined` array element) for every tier and every outcome of the random
draws, and `generateAllRounds` with ten rounds raises it too, where the claim
expects `null` and an empty list of rounds. -/
theorem generateRound_short_pool_throws (t : Nat) (draws : Nat → Draw)
    (slotDraws : Nat → Nat → Draw) (c : Company) :
    generateRound [] t draws = .error .typeError ∧
      generateRound [c] t draws = .error .typeError ∧
      generateAllRounds [] 10 slotDraws = .error .typeError ∧
      generateAllRounds [c] 10 slotDraws = .error .typeError :=
  ⟨generateRound_error_of_short (by decide) t draws,
    generateRound_error_of_short (by simp) t draws,
    generateAllRounds_error_of_short (by decide) 9 slotDraws,
    generateAllRounds_error_of_short (by simp) 9 slotDraws⟩

/-! ## The difficulty band -/

/-- C8: for tier 0, 1 or 2 with the band `[0.5, Infinity]`, `[0.15, 1.0]` or
`[0.01, 0.5]`: if one of the 200 candidates of the first loop passes the `continue`
tests and has `min <= diff <= max`, then `generateRound` returns a round, and the
`diff` of that round satisfies `min <= diff <= max`. -/
theorem generateRound_in_band (companies : List Company) (t : Nat) (lo : ℚ) (hi : JsNum)
    (draws : Nat → Draw)
    (hband : (t, lo, hi) ∈
      [(0, (1 / 2 : ℚ), JsNum.inf), (1, 15 / 100, JsNum.fin 1), (2, 1 / 100, JsNum.fin (1 / 2))])
    (hcand : ∃ i, i < 200 ∧ ∃ a b m,
      drawCandidate companies (draws i) = .ok (some (a, b, m)) ∧
      JsNum.fin lo ≤ getMetricDiff a b m ∧ getMetricDiff a b m ≤ hi) :
    ∃ r, generateRound companies t draws = .ok (some r) ∧ JsNum.fin lo ≤ r.diff ∧ r.diff ≤ hi := by
  have hth : thresholdOf t = { min := lo, max := hi } := by
    simp only [List.mem_cons, Prod.mk.injEq, List.mem_singleton, List.not_mem_nil, or_false]
      at hband
    rcases hband with ⟨rfl, rfl, rfl⟩ | ⟨rfl, rfl, rfl⟩ | ⟨rfl, rfl, rfl⟩ <;> rfl
  obtain ⟨i, hi200, a, b, m, hd, hlo, hhi⟩ := hcand
  have hlen := length_of_drawCandidate_some hd
  obtain ⟨s, hs⟩ := firstPass_total hlen (thresholdOf t) (distractorCountOf t) draws 200 0
    { best := none, bestDiff := .inf }
  have hsome : s.best ≠ none :=
    (firstPass_finds 200 0 _ s hs (fun _ => rfl)).2.2 i (Nat.zero_le i) (by omega) a b m hd
      (by rw [hth]; exact ⟨hlo, hhi⟩)
  obtain ⟨c, hc⟩ := Option.ne_none_iff_exists'.mp hsome
  refine ⟨withAnswer c, ?_, ?_⟩
  · unfold generateRound
    simp only
    rw [hs]
    simp only [hc]
  · rcases firstPass_best 200 0 _ s hs c hc with h0 | ⟨j, -, -, -, hin⟩
    · cases h0
    · rw [hth] at hin
      exact hin

/-- Witness of C8: tier 0 on the pool of the companies with P/E 25 and 5, whose
first candidate has `diff = 4/3`. -/
theorem generateRound_in_band_witness :
    ∃ r, generateRound poolAB 0 (fun _ => drawKeepPe) = .ok (some r) ∧
      JsNum.fin (1 / 2) ≤ r.diff ∧ r.diff ≤ JsNum.inf :=
  generateRound_in_band poolAB 0 (1 / 2) JsNum.inf (fun _ => drawKeepPe)
    (List.mem_cons_self _ _)
    ⟨0, by decide, companyA25, companyB5, peMetric, by decide!, by decide!, by decide!⟩

/-! ## The session sequencer -/

theorem generateAllRoundsLoop_eq (companies : List Company) (draws : Nat → Nat → Draw)
    (results : Nat → Option Round) :
    ∀ (n i : Nat) (acc : List Round),
      (∀ j, i ≤ j → j < i + n →
        generateRound companies (tierOfSlot j) (draws j) = .ok (results j)) →
      generateAllRoundsLoop companies draws n i acc =
        .ok (acc ++ (List.range' i n).filterMap (fun j => (results j).map (taggedRound j))) := by
  intro n
  induction n with
  | zero => intro i acc _; simp [generateAllRoundsLoop]
  | succ n ih =>
    intro i acc h
    have hi := h i (le_refl i) (by omega)
    have hrest := fun acc1 => ih (i + 1) acc1 (fun j h1 h2 => h j (by omega) (by omega))
    unfold tierOfSlot at hi
    rw [generateAllRoundsLoop]
    simp only [hi]
    rw [List.range'_succ, List.filterMap_cons]
    cases hr : results i with
    | none => simp only [Option.map_none']; exact hrest acc
    | some r =>
      simp only [Option.map_some']
      rw [hrest, List.append_assoc]
      rfl

theorem filterMap_length_le_of_range {α : Type} (f : Nat → Option α) (n : Nat) :
    ((List.range n).filterMap f).length ≤ n := by
  calc ((List.range n).filterMap f).length ≤ (List.range n).length := List.length_filterMap_le f _
    _ = n := List.length_range n

theorem filterMap_range_of_some {α : Type} (f : Nat → Option α) (g : Nat → α) (n : Nat)
    (h : ∀ i, i < n → f i = some (g i)) :
    (List.range n).filterMap f = (List.range n).map g := by
  rw [← List.filterMap_eq_map]
  apply List.filterMap_congr
  intro i hi
  exact h i (List.mem_range.mp hi)

/-- C9: when the `n` sampler calls return (slot `i` samples tier 0 if `i < 3`, tier 1
if `i < 7`, else tier 2), `generateAllRounds(companies, n)` returns, in slot order,
exactly their non-null results, the round of slot `i` tagged `roundNum = i + 1` and
`difficulty` = the tier of the slot. The result has at most `n` rounds, and when
all 10 calls of a 10-round session succeed it has exactly 10 rounds, round `i + 1`
being the tagged result of slot `i`: tier 0 for rounds 1-3, tier 1 for rounds 4-7
and tier 2 for rounds 8-10. -/
theorem generateAllRounds_slots (companies : List Company) (n : Nat)
    (draws : Nat → Nat → Draw) (results : Nat → Option Round)
    (h : ∀ i, i < n →
      generateRound companies (if i < 3 then 0 else if i < 7 then 1 else 2) (draws i) =
        .ok (results i)) :
    ∃ rounds, generateAllRounds companies n draws = .ok rounds ∧
      rounds = (List.range n).filterMap (fun i => (results i).map (fun r =>
        { r with roundNum := some (i + 1),
                 difficulty := some (if i < 3 then 0 else if i < 7 then 1 else 2) })) ∧
      rounds.length ≤ n ∧
      (n = 10 → ∀ rs : Nat → Round, (∀ i, i < 10 → results i = some (rs i)) →
        rounds.length = 10 ∧
        ∀ i, i < 10 → rounds[i]? = some { rs i with
          roundNum := some (i + 1),
          difficulty := some (if i < 3 then 0 else if i < 7 then 1 else 2) }) := by
  have hloop := generateAllRoundsLoop_eq companies draws results n 0 []
    (fun j _ hj => h j (by omega))
  rw [List.nil_append, ← List.range_eq_range'] at hloop
  refine ⟨_, hloop, rfl, filterMap_length_le_of_range _ n, ?_⟩
  intro hn rs hrs
  subst hn
  have hmap := filterMap_range_of_some (fun j => (results j).map (taggedRound j))
    (fun j => taggedRound j (rs j)) 10 (fun i hi => by simp only [hrs i hi, Option.map_some'])
  rw [hmap]
  refine ⟨by simp, ?_⟩
  intro i hi
  rw [List.getElem?_map, List.getElem?_range hi]
  rfl

/-- Witness of C9: on the pool of the companies with P/E 25 and 5 every slot keeps
a round (with the distractor count of its tier), so the session has ten rounds. -/
theorem generateAllRounds_slots_witness :
    ∃ rounds, generateAllRounds poolAB 10 (fun _ _ => drawKeepPe) = .ok rounds ∧
      rounds.length = 10 ∧
      ∀ i, i < 10 → rounds[i]? = some { roundAB with
        distractorCount := (if i < 3 then 0 else if i < 7 then 1 else 2) + 1,
        roundNum := some (i + 1),
        difficulty := some (if i < 3 then 0 else if i < 7 then 1 else 2) } := by
  have h0 : generateRound poolAB 0 (fun _ => drawKeepPe) =
      .ok (some { roundAB with distractorCount := 1 }) := by decide!
  have h1 : generateRound poolAB 1 (fun _ => drawKeepPe) =
      .ok (some { roundAB with distractorCount := 2 }) := by decide!
  have h2 : generateRound poolAB 2 (fun _ => drawKeepPe) =
      .ok (some { roundAB with distractorCount := 3 }) := by decide!
  obtain ⟨rounds, hr, -, -, hten⟩ :=
    generateAllRounds_slots poolAB 10 (fun _ _ => drawKeepPe)
      (fun i => some { roundAB with
        distractorCount := (if i < 3 then 0 else if i < 7 then 1 else 2) + 1 })
      (by
        intro i _
        beta_reduce
        split_ifs
        · exact h0
        · exact h1
        · exact h2)
  exact ⟨rounds, hr, hten rfl
    (fun i => { roundAB with
      distractorCount := (if i < 3 then 0 else if i < 7 then 1 else 2) + 1 })
    (fun _ _ => rfl)⟩

/-! ## The high score -/

theorem handleNext_highScore (s : GameState) (h : s.currentIdx + 1 ≥ s.rounds.length) :
    (handleNext s).highScore =
      max s.highScore (s.score + (if s.isCorrect = some true then 1 else 0)) := by
  simp only [handleNext, if_pos h]

/-- C10, as the code behaves: in a session of ten rounds that are all answered
correctly, starting from high score 0, the state before the last press of next is
in phase result with score 10, and `handleNext` then sets the high score to 11:
the score already counts the last round and `handleNext` adds `isCorrect` once
more. The high score exceeds both the final score 10 and the ten rounds of the
session. -/
theorem handleNext_counts_last_round_twice :
    (run poolAB {} perfectSession.dropLast).phase = .result ∧
      (run poolAB {} perfectSession.dropLast).currentIdx = 9 ∧
      (run poolAB {} perfectSession.dropLast).score = 10 ∧
      (run poolAB {} perfectSession.dropLast).highScore = 0 ∧
      (run poolAB {} perfectSession).screen = .results ∧
      (run poolAB {} perfectSession).rounds.length = 10 ∧
      (run poolAB {} perfectSession).answers =
        List.replicate 10 { guess := .lower, isCorrect := true } ∧
      (run poolAB {} perfectSession).score = 10 ∧
      (run poolAB {} perfectSession).highScore = 11 := by
  decide!

/-! ## Bounds and scaling of `getMetricDiff` -/

theorem abs_sub_le_two_mul_avg (va vb : ℚ) : |va - vb| ≤ 2 * ((|va| + |vb|) / 2) := by
  have h := abs_sub va vb
  linarith

theorem getMetricDiff_le_two (a b : Company) (m : Metric) (d : ℚ)
    (h : getMetricDiff a b m = .fin d) : 0 ≤ d ∧ d ≤ 2 := by
  cases ha : a.get m.key with
  | null => rw [getMetricDiff_of_nullish a b m (Or.inl (by rw [ha]; rfl))] at h; cases h
  | undefined => rw [getMetricDiff_of_nullish a b m (Or.inl (by rw [ha]; rfl))] at h; cases h
  | num va =>
    cases hb : b.get m.key with
    | null => rw [getMetricDiff_of_nullish a b m (Or.inr (by rw [hb]; rfl))] at h; cases h
    | undefined => rw [getMetricDiff_of_nullish a b m (Or.inr (by rw [hb]; rfl))] at h; cases h
    | num vb =>
      rw [getMetricDiff_of_nums a b m va vb ha hb] at h
      split_ifs at h with h1 h2
      have havg : 0 < (|va| + |vb|) / 2 :=
        lt_of_le_of_ne (by positivity) (Ne.symm h2)
      have hd : d = |va - vb| / ((|va| + |vb|) / 2) := (JsNum.fin.inj h).symm
      rw [hd]
      refine ⟨div_nonneg (abs_nonneg _) havg.le, ?_⟩
      rw [div_le_iff₀ havg]
      exact abs_sub_le_two_mul_avg va vb

theorem getMetricDiff_fin_of_avg {a b : Company} {m : Metric} {va vb : ℚ}
    (ha : a.get m.key = .num va) (hb : b.get m.key = .num vb)
    (hpe : m.key = .pe → 0 ≤ va ∧ 0 ≤ vb) (havg : (|va| + |vb|) / 2 ≠ 0) :
    getMetricDiff a b m = .fin (|va - vb| / ((|va| + |vb|) / 2)) := by
  rw [getMetricDiff_of_nums a b m va vb ha hb]
  have h1 : ¬ (m.key = .pe ∧ (va < 0 ∨ vb < 0)) := by
    rintro ⟨hk, hlt⟩
    obtain ⟨h2, h3⟩ := hpe hk
    rcases hlt with hlt | hlt
    · exact absurd h2 (not_le.mpr hlt)
    · exact absurd h3 (not_le.mpr hlt)
  rw [if_neg h1, if_neg havg]

theorem avg_ne_zero_of_not_both_zero {va vb : ℚ} (h : ¬ (va = 0 ∧ vb = 0)) :
    (|va| + |vb|) / 2 ≠ 0 := by
  intro h0
  apply h
  have ha : |va| = 0 := by linarith [abs_nonneg va, abs_nonneg vb]
  have hb : |vb| = 0 := by linarith [abs_nonneg va, abs_nonneg vb]
  exact ⟨abs_eq_zero.mp ha, abs_eq_zero.mp hb⟩

/-- C14: for every metric and every two values that are numbers, of the same sign
(both `>= 0` or both `<= 0`) and not both zero, and not negative when the metric is
P/E, `getMetricDiff` returns a finite value `d` with `0 <= d <= 2`. -/
theorem getMetricDiff_same_sign_bounded (a b : Company) (m : Metric) (va vb : ℚ)
    (ha : a.get m.key = .num va) (hb : b.get m.key = .num vb)
    (_hsign : (0 ≤ va ∧ 0 ≤ vb) ∨ (va ≤ 0 ∧ vb ≤ 0))
    (hzero : ¬ (va = 0 ∧ vb = 0))
    (hpe : m.key = .pe → 0 ≤ va ∧ 0 ≤ vb) :
    ∃ d : ℚ, getMetricDiff a b m = .fin d ∧ 0 ≤ d ∧ d ≤ 2 := by
  have hfin := getMetricDiff_fin_of_avg ha hb hpe (avg_ne_zero_of_not_both_zero hzero)
  exact ⟨_, hfin, getMetricDiff_le_two a b m _ hfin⟩

/-- Witness of C14: the P/E values 25 and 5. -/
theorem getMetricDiff_same_sign_bounded_witness :
    ∃ d : ℚ, getMetricDiff companyA25 companyB5 peMetric = .fin d ∧ 0 ≤ d ∧ d ≤ 2 :=
  getMetricDiff_same_sign_bounded companyA25 companyB5 peMetric 25 5 rfl rfl
    (Or.inl ⟨by norm_num, by norm_num⟩) (by norm_num) (fun _ => ⟨by norm_num, by norm_num⟩)

/-- Counterexample to C15: no two numbers of opposite sign on a metric other than
P/E have a finite `getMetricDiff` above the bound 2, so the score is not unbounded
for opposite signs. -/
theorem getMetricDiff_opposite_not_unbounded :
    ¬ (∀ M : ℚ, ∃ (m : Metric) (a b : Company) (va vb d : ℚ), m.key ≠ .pe ∧
        a.get m.key = .num va ∧ b.get m.key = .num vb ∧
        ((0 < va ∧ vb < 0) ∨ (va < 0 ∧ 0 < vb)) ∧
        getMetricDiff a b m = .fin d ∧ M < d) := by
  intro h
  obtain ⟨m, a, b, va, vb, d, -, -, -, -, hd, hM⟩ := h 2
  exact absurd (getMetricDiff_le_two a b m d hd).2 (not_le.mpr hM)

/-- C15, amended: for every metric other than P/E and every two numbers of opposite
sign (one positive, one negative), `getMetricDiff` returns exactly 2; a finite
value of `getMetricDiff` never exceeds 2. -/
theorem getMetricDiff_opposite_sign (a b : Company) (m : Metric) (va vb : ℚ)
    (hm : m.key ≠ .pe) (ha : a.get m.key = .num va) (hb : b.get m.key = .num vb)
    (hsign : (0 < va ∧ vb < 0) ∨ (va < 0 ∧ 0 < vb)) :
    getMetricDiff a b m = .fin 2 ∧
      ∀ (a1 b1 : Company) (m1 : Metric) (d : ℚ), getMetricDiff a1 b1 m1 = .fin d → d ≤ 2 := by
  refine ⟨?_, fun a1 b1 m1 d hd => (getMetricDiff_le_two a1 b1 m1 d hd).2⟩
  have hsum : |va - vb| = |va| + |vb| := by
    rcases hsign with ⟨h1, h2⟩ | ⟨h1, h2⟩
    · rw [abs_of_pos h1, abs_of_neg h2, abs_of_pos (by linarith)]; ring
    · rw [abs_of_neg h1, abs_of_pos h2, abs_of_neg (by linarith)]; ring
  have hpos : 0 < |va| + |vb| := by
    rcases hsign with ⟨h1, -⟩ | ⟨h1, -⟩
    · linarith [abs_pos.mpr h1.ne', abs_nonneg vb]
    · linarith [abs_pos.mpr h1.ne, abs_nonneg vb]
  rw [getMetricDiff_fin_of_avg ha hb (fun hk => absurd hk hm) (by linarith), hsum]
  congr 1
  field_simp

/-- Witness of C15, amended: the ROE values 1 and -3. -/
theorem getMetricDiff_opposite_sign_witness :
    getMetricDiff { ticker := "A", roe := .num 1 } { ticker := "B", roe := .num (-3) }
      (METRICS.get ⟨0, by decide⟩) = .fin 2 :=
  (getMetricDiff_opposite_sign { ticker := "A", roe := .num 1 }
    { ticker := "B", roe := .num (-3) } (METRICS.get ⟨0, by decide⟩) 1 (-3) (by decide) rfl rfl
    (Or.inl ⟨by norm_num, by norm_num⟩)).1

/-- C16: `getMetricDiff` is scale-invariant: when the two values `va`, `vb` are
numbers and the values of a second pair of companies are `k * va` and `k * vb`, the
score of the second pair equals the score of the first, for every `k != 0` on a
metric other than P/E and for every `k > 0` on P/E. -/
theorem getMetricDiff_scale (a b a1 b1 : Company) (m : Metric) (va vb k : ℚ)
    (ha : a.get m.key = .num va) (hb : b.get m.key = .num vb)
    (ha1 : a1.get m.key = .num (k * va)) (hb1 : b1.get m.key = .num (k * vb))
    (hk : k ≠ 0) (hpe : m.key = .pe → 0 < k) :
    getMetricDiff a1 b1 m = getMetricDiff a b m := by
  rw [getMetricDiff_of_nums a b m va vb ha hb,
    getMetricDiff_of_nums a1 b1 m (k * va) (k * vb) ha1 hb1]
  have hkpos : 0 < |k| := abs_pos.mpr hk
  have hnum : |k * va - k * vb| = |k| * |va - vb| := by rw [← mul_sub, abs_mul]
  have havg : (|k * va| + |k * vb|) / 2 = |k| * ((|va| + |vb|) / 2) := by
    rw [abs_mul, abs_mul]; ring
  have hcond : (m.key = .pe ∧ (k * va < 0 ∨ k * vb < 0)) ↔ (m.key = .pe ∧ (va < 0 ∨ vb < 0)) := by
    constructor
    · rintro ⟨h1, h2⟩
      have hk0 := hpe h1
      refine ⟨h1, ?_⟩
      rcases h2 with h2 | h2
      · exact Or.inl (by by_contra hc; exact absurd h2 (not_lt.mpr (mul_nonneg hk0.le (not_lt.mp hc))))
      · exact Or.inr (by by_contra hc; exact absurd h2 (not_lt.mpr (mul_nonneg hk0.le (not_lt.mp hc))))
    · rintro ⟨h1, h2⟩
      have hk0 := hpe h1
      refine ⟨h1, ?_⟩
      rcases h2 with h2 | h2
      · exact Or.inl (mul_neg_of_pos_of_neg hk0 h2)
      · exact Or.inr (mul_neg_of_pos_of_neg hk0 h2)
  have hzero : (|k * va| + |k * vb|) / 2 = 0 ↔ (|va| + |vb|) / 2 = 0 := by
    rw [havg, mul_eq_zero]
    exact ⟨fun h => h.resolve_left hkpos.ne', fun h => Or.inr h⟩
  by_cases c1 : m.key = .pe ∧ (va < 0 ∨ vb < 0)
  · rw [if_pos c1, if_pos (hcond.mpr c1)]
  · rw [if_neg c1, if_neg (fun h => c1 (hcond.mp h))]
    by_cases c2 : (|va| + |vb|) / 2 = 0
    · rw [if_pos c2, if_pos (hzero.mpr c2)]
    · rw [if_neg c2, if_neg (fun h => c2 (hzero.mp h)), hnum, havg,
        mul_div_mul_left _ _ hkpos.ne']

/-- Witness of C16: the P/E values 25 and 5 scaled by 2. -/
theorem getMetricDiff_scale_witness :
    getMetricDiff { ticker := "A", pe := .num (2 * 25) } { ticker := "B", pe := .num (2 * 5) }
      peMetric = getMetricDiff companyA25 companyB5 peMetric :=
  getMetricDiff_scale companyA25 companyB5 { ticker := "A", pe := .num (2 * 25) }
    { ticker := "B", pe := .num (2 * 5) } peMetric 25 5 2 rfl rfl rfl rfl (by norm_num)
    (fun _ => by norm_num)

/-! ## When the easy tier finds a round -/

theorem JsNum.le_inf (x : JsNum) : x ≤ JsNum.inf := by
  cases x <;> exact trivial

theorem fallbackPass_finds {companies : List Company} {dc : Nat} {draws : Nat → Draw} :
    ∀ (n k : Nat), (∃ i, k ≤ i ∧ i < k + n ∧ ∃ a b m,
        drawCandidate companies (draws i) = .ok (some (a, b, m))) →
      ∃ c, fallbackPass companies dc draws n k = .ok (some c) := by
  intro n
  induction n with
  | zero => rintro k ⟨i, h1, h2, -⟩; omega
  | succ n ih =>
    rintro k ⟨i, h1, h2, a, b, m, hd⟩
    obtain ⟨r, hr⟩ := drawCandidate_ok_of_long (length_of_drawCandidate_some hd) (draws k)
    rw [fallbackPass, hr]
    rcases r with _ | ⟨a0, b0, m0⟩
    · have hik : i ≠ k := by
        rintro rfl
        rw [hr] at hd
        cases hd
      exact ih (k + 1) ⟨i, by omega, by omega, a, b, m, hd⟩
    · exact ⟨_, rfl⟩

/-- Counterexample to C17: a pool of twenty companies contains a pair with relative
difference `4/3` on P/E, and `generateRound(pool, 0)` returns `null` when every
attempt draws the first two companies with the ROE metric, on which they tie. -/
theorem generateRound_easy_returns_null :
    pool20.length = 20 ∧ (pool20.map Company.ticker).Nodup ∧
      (∃ a b, pool20[0]? = some a ∧ pool20[1]? = some b ∧
        getMetricDiff a b peMetric = .fin (4 / 3) ∧
        JsNum.fin (1 / 2) ≤ getMetricDiff a b peMetric) ∧
      generateRound pool20 0 (fun _ => drawKeepRoe) = .ok none := by
  refine ⟨by decide, by decide, ⟨_, _, rfl, rfl, ?_, ?_⟩, ?_⟩
  · decide!
  · decide!
  · decide!

/-- C17, amended: `generateRound(pool, 0)` returns a non-null round exactly when
one of the 200 draws of the first loop yields a candidate that passes the
`continue` tests with relative difference `>= 0.5`, or one of the 100 draws of the
fallback loop yields a candidate that passes the `continue` tests. (A pool of at
least 20 companies with a pair of relative difference `>= 0.5` does not make this
hold for every outcome of the draws.) -/
theorem generateRound_easy_nonnull_iff (companies : List Company) (draws : Nat → Draw) :
    (∃ r, generateRound companies 0 draws = .ok (some r)) ↔
      ((∃ i, i < 200 ∧ ∃ a b m, drawCandidate companies (draws i) = .ok (some (a, b, m)) ∧
          JsNum.fin (1 / 2) ≤ getMetricDiff a b m) ∨
        (∃ i, 200 ≤ i ∧ i < 300 ∧ ∃ a b m,
          drawCandidate companies (draws i) = .ok (some (a, b, m)))) := by
  have hth : thresholdOf 0 = { min := 1 / 2, max := .inf } := rfl
  constructor
  · rintro ⟨r, hr⟩
    obtain ⟨c, -, hc⟩ := generateRound_some hr
    rcases hc with ⟨i, hi, ⟨hd, hdiff, -⟩, hband⟩ | ⟨i, hi1, hi2, ⟨hd, -, -⟩⟩
    · refine Or.inl ⟨i, hi, _, _, _, hd, ?_⟩
      rw [← hdiff]
      exact hband.1
    · exact Or.inr ⟨i, hi1, hi2, _, _, _, hd⟩
  · intro h
    have hlen : 2 ≤ companies.length := by
      rcases h with ⟨i, -, a, b, m, hd, -⟩ | ⟨i, -, -, a, b, m, hd⟩
      · exact length_of_drawCandidate_some hd
      · exact length_of_drawCandidate_some hd
    obtain ⟨s, hs⟩ := firstPass_total hlen (thresholdOf 0) (distractorCountOf 0) draws 200 0
      { best := none, bestDiff := .inf }
    cases hbest : s.best with
    | some c =>
      refine ⟨withAnswer c, ?_⟩
      unfold generateRound
      simp only
      rw [hs]
      simp only [hbest]
    | none =>
      have hfb : ∃ i, 200 ≤ i ∧ i < 200 + 100 ∧ ∃ a b m,
          drawCandidate companies (draws i) = .ok (some (a, b, m)) := by
        rcases h with ⟨i, hi, a, b, m, hd, hge⟩ | ⟨i, hi1, hi2, a, b, m, hd⟩
        · exfalso
          exact (firstPass_finds 200 0 _ s hs (fun _ => rfl)).2.2 i (Nat.zero_le i) (by omega)
            a b m hd (by rw [hth]; exact ⟨hge, JsNum.le_inf _⟩) hbest
        · exact ⟨i, hi1, by omega, a, b, m, hd⟩
      obtain ⟨c, hc⟩ := @fallbackPass_finds companies (distractorCountOf 0) draws 100 200 hfb
      refine ⟨withAnswer c, ?_⟩
      unfold generateRound
      simp only
      rw [hs]
      simp only [hbest, hc]

/-- Witness of C17, amended: on the pool of the companies with P/E 25 and 5 the first
draw already yields a usable candidate with relative difference `4/3`. -/
theorem generateRound_easy_nonnull_iff_witness :
    ∃ r, generateRound poolAB 0 (fun _ => drawKeepPe) = .ok (some r) :=
  (generateRound_easy_nonnull_iff poolAB (fun _ => drawKeepPe)).mpr
    (Or.inl ⟨0, by decide, companyA25, companyB5, peMetric, by decide!, by decide!⟩)

/-! ## The distractor count -/

/-- C18: for tier `t` in `{0, 1, 2}`, every round that `generateRound(pool, t)`
returns, from the first loop or from the fallback loop, has
`distractorCount = t + 1`. -/
theorem generateRound_distractorCount (companies : List Company) (t : Nat)
    (draws : Nat → Draw) (r : Round) (ht : t < 3)
    (h : generateRound companies t draws = .ok (some r)) :
    r.distractorCount = t + 1 := by
  obtain ⟨d, -, -, hdc, -⟩ := generateRound_usable h
  rw [hdc]
  interval_cases t <;> rfl

/-- Witness of C18: tier 2 on the pool of the companies with P/E 25 and 5 returns,
from the fallback loop, a round with three distractors. -/
theorem generateRound_distractorCount_witness :
    generateRound poolAB 2 (fun _ => drawKeepPe) =
        .ok (some { roundAB with distractorCount := 3 }) ∧
      ({ roundAB with distractorCount := 3 } : Round).distractorCount = 2 + 1 :=
  ⟨by decide!,
    generateRound_distractorCount poolAB 2 (fun _ => drawKeepPe)
      { roundAB with distractorCount := 3 } (by decide) (by decide!)⟩

/-! ## The score of a session -/

theorem startGame_scoreMatches {companies : List Company} {draws : Nat → Nat → Draw}
    {s0 s1 : GameState} (h : startGame companies draws s0 = .ok s1) : ScoreMatches s1 := by
  unfold startGame at h
  split at h
  · cases h
  · simp only [Except.ok.injEq] at h
    subst h
    simp [ScoreMatches]

theorem step_scoreMatches (companies : List Company) (s : GameState) (a : Action)
    (h : ScoreMatches s) : ScoreMatches (step companies s a) := by
  cases a with
  | start draws =>
    simp only [step]
    split_ifs
    · split
      · rename_i s1 heq
        exact startGame_scoreMatches heq
      · exact h
    · exact h
  | guess g =>
    simp only [step]
    split_ifs
    · unfold handleGuess
      split
      · exact h
      · split_ifs
        · exact h
        · exact h
    · exact h
  | timeout =>
    simp only [step, timerFires]
    split
    · exact h
    · rename_i t rest _
      unfold ScoreMatches at h ⊢
      simp only [List.countP_append, List.countP_cons, List.countP_nil]
      cases t.correct <;> simp [h]
  | next =>
    simp only [step]
    split_ifs
    · unfold handleNext
      split_ifs <;> exact h
    · exact h
  | quit =>
    simp only [step]
    split_ifs
    · exact h
    · exact h

theorem run_scoreMatches (companies : List Company) (actions : List Action) :
    ∀ s : GameState, ScoreMatches s → ScoreMatches (run companies s actions) := by
  induction actions with
  | nil => intro s h; exact h
  | cons a rest ih =>
    intro s h
    exact ih (step companies s a) (step_scoreMatches companies s a h)

theorem startGame_poolAB : startGame poolAB (fun _ _ => drawKeepPe) {} = .ok startedAB := by
  decide!

theorem startedAB_ready :
    startedAB.screen = .playing ∧ startedAB.phase = .guessing ∧
      startedAB.round = some firstRoundAB ∧ startedAB.timers = [] ∧ startedAB.score = 0 := by
  decide!

/-- C11: in every state reached from the state that `startGame` sets up by any
sequence of the events guess, timed reveal, advance, quit and start, the score
equals the number of entries of `answers` that are marked correct, and so it never
exceeds the number of recorded outcomes. -/
theorem score_counts_correct (companies : List Company) (draws : Nat → Nat → Draw)
    (s0 s1 : GameState) (actions : List Action)
    (h : startGame companies draws s0 = .ok s1) :
    (run companies s1 actions).score =
        (run companies s1 actions).answers.countP (fun a => a.isCorrect) ∧
      (run companies s1 actions).score ≤ (run companies s1 actions).answers.length := by
  have hm : ScoreMatches (run companies s1 actions) :=
    run_scoreMatches companies actions s1 (startGame_scoreMatches h)
  refine ⟨hm, ?_⟩
  rw [hm]
  exact List.countP_le_length _

/-- Witness of C11: the session of ten correct guesses on the pool of the companies
with P/E 25 and 5. -/
theorem score_counts_correct_witness :
    startGame poolAB (fun _ _ => drawKeepPe) {} = .ok startedAB ∧
      (run poolAB startedAB perfectSession.tail).score =
        (run poolAB startedAB perfectSession.tail).answers.countP (fun a => a.isCorrect) ∧
      (run poolAB startedAB perfectSession.tail).score ≤
        (run poolAB startedAB perfectSession.tail).answers.length :=
  ⟨startGame_poolAB,
    score_counts_correct poolAB (fun _ _ => drawKeepPe) {} startedAB perfectSession.tail
      startGame_poolAB⟩

/-! ## One guess in one round -/

/-- Counterexample to C12: the player guesses, quits during the reveal delay, starts
a new game and guesses in its first round; the two pending callbacks then both run
in that round, which records two outcomes and raises the score from 0 to 2 while
the session is still in its first round. -/
theorem score_updated_twice_in_one_round :
    (run poolAB {} (quitDuringReveal ++ [Action.guess .lower])).currentIdx = 0 ∧
      (run poolAB {} (quitDuringReveal ++ [Action.guess .lower])).score = 0 ∧
      (run poolAB {} (quitDuringReveal ++ [Action.guess .lower])).answers = [] ∧
      (run poolAB {} (quitDuringReveal ++
        [Action.guess .lower, Action.timeout, Action.timeout])).currentIdx = 0 ∧
      (run poolAB {} (quitDuringReveal ++
        [Action.guess .lower, Action.timeout, Action.timeout])).score = 2 ∧
      (run poolAB {} (quitDuringReveal ++
        [Action.guess .lower, Action.timeout, Action.timeout])).answers =
          [{ guess := .lower, isCorrect := true }, { guess := .lower, isCorrect := true }] := by
  decide!

/-- C12, amended: in a state with no reveal delay pending, the score is updated
exactly once within the round. A guess in phase guessing with a current round moves
to phase revealing, stores the guess and its correctness and leaves the score and
the outcomes as they are; when its delay elapses the phase is result, the score
has risen by 1 if the guess equals the round's answer and by 0 otherwise, one
outcome is recorded and no delay is pending; a further guess in phase revealing or
result changes nothing. A guess in a phase other than guessing, or without a
current round, leaves the whole state unchanged. -/
theorem handleGuess_scores_once (s : GameState) (g g2 : Answer) (r : Round) :
    ((s.phase ≠ .guessing ∨ s.round = none) → handleGuess g s = s) ∧
    (s.phase = .guessing → s.round = some r → s.timers = [] →
      (handleGuess g s).phase = .revealing ∧
      (handleGuess g s).score = s.score ∧
      (handleGuess g s).answers = s.answers ∧
      (handleGuess g s).guess = some g ∧
      (handleGuess g s).isCorrect = some (decide (g = r.answer)) ∧
      (timerFires (handleGuess g s)).phase = .result ∧
      (timerFires (handleGuess g s)).score = s.score + (if g = r.answer then 1 else 0) ∧
      (timerFires (handleGuess g s)).answers =
        s.answers ++ [{ guess := g, isCorrect := decide (g = r.answer) }] ∧
      (timerFires (handleGuess g s)).timers = [] ∧
      handleGuess g2 (handleGuess g s) = handleGuess g s ∧
      handleGuess g2 (timerFires (handleGuess g s)) = timerFires (handleGuess g s) ∧
      timerFires (timerFires (handleGuess g s)) = timerFires (handleGuess g s)) := by
  constructor
  · intro h
    unfold handleGuess
    split
    · rfl
    · rename_i r0 hr0
      rcases h with h | h
      · rw [if_pos h]
      · rw [h] at hr0
        cases hr0
  · intro hphase hround htimers
    have hg : handleGuess g s =
        { s with guess := some g, phase := .revealing,
                 isCorrect := some (decide (g = r.answer)),
                 timers := [{ g := g, correct := decide (g = r.answer) }] } := by
      unfold handleGuess
      rw [hround]
      simp only [hphase, ne_eq, not_true_eq_false, if_false, htimers, List.nil_append]
    have ht : timerFires (handleGuess g s) =
        { s with guess := some g, phase := .result,
                 isCorrect := some (decide (g = r.answer)),
                 timers := [],
                 score := if decide (g = r.answer) = true then s.score + 1 else s.score,
                 answers := s.answers ++ [{ guess := g, isCorrect := decide (g = r.answer) }] } := by
      rw [hg]
      rfl
    refine ⟨by rw [hg], by rw [hg], by rw [hg], by rw [hg], by rw [hg], by rw [ht], ?_,
      by rw [ht], by rw [ht], ?_, ?_, ?_⟩
    · rw [ht]
      by_cases hc : g = r.answer <;> simp [hc]
    · rw [hg]
      unfold handleGuess
      split
      · rfl
      · rw [if_pos (by simp)]
    · rw [ht]
      unfold handleGuess
      split
      · rfl
      · rw [if_pos (by simp)]
    · rw [ht]
      rfl

/-- Witness of C12, amended: the first guess of a session on the pool of the
companies with P/E 25 and 5. -/
theorem handleGuess_scores_once_witness :
    startedAB.phase = .guessing ∧ startedAB.round = some firstRoundAB ∧
      startedAB.timers = [] ∧
      (timerFires (handleGuess .lower startedAB)).score = startedAB.score + 1 ∧
      handleGuess .higher (timerFires (handleGuess .lower startedAB)) =
        timerFires (handleGuess .lower startedAB) :=
  ⟨startedAB_ready.2.1, startedAB_ready.2.2.1, startedAB_ready.2.2.2.1,
    ((handleGuess_scores_once startedAB .lower .higher firstRoundAB).2
      startedAB_ready.2.1 startedAB_ready.2.2.1 startedAB_ready.2.2.2.1).2.2.2.2.2.2.1,
    ((handleGuess_scores_once startedAB .lower .higher firstRoundAB).2
      startedAB_ready.2.1 startedAB_ready.2.2.1 startedAB_ready.2.2.2.1).2.2.2.2.2.2.2.2.2.2.1⟩

/-! ## A reveal delay that is pending at a quit -/

/-- Counterexample to C13: the player guesses "lower" (the correct answer), quits
during the reveal delay and starts a new game. The new session is in phase guessing
with score 0 and no outcome; when the old delay elapses, without any guess in the
new session, its phase is result, its score is 1 and it has one recorded outcome. -/
theorem stale_reveal_changes_new_session :
    (run poolAB {} quitDuringReveal).screen = .playing ∧
      (run poolAB {} quitDuringReveal).phase = .guessing ∧
      (run poolAB {} quitDuringReveal).score = 0 ∧
      (run poolAB {} quitDuringReveal).answers = [] ∧
      (run poolAB {} (quitDuringReveal ++ [Action.timeout])).guess = none ∧
      (run poolAB {} (quitDuringReveal ++ [Action.timeout])).phase = .result ∧
      (run poolAB {} (quitDuringReveal ++ [Action.timeout])).score = 1 ∧
      (run poolAB {} (quitDuringReveal ++ [Action.timeout])).answers =
        [{ guess := .lower, isCorrect := true }] := by
  decide!

/-- C13, amended: a reveal delay that is still pending when the player quits is not
discarded. When the player guesses `g` in a round with no other delay pending,
quits before the delay elapses and starts a new game, the new session is in phase
guessing with score 0 and no recorded outcome, and the old callback is still
pending; when the old delay elapses, the new session's phase becomes result, the
outcome of `g` is recorded in `answers` and the score is 1 if `g` was correct and 0
otherwise, although the player has not guessed in the new session. -/
theorem pending_reveal_survives_quit (companies : List Company) (s : GameState) (g : Answer)
    (r : Round) (draws : Nat → Nat → Draw) (rs : List Round)
    (hscreen : s.screen = .playing) (hphase : s.phase = .guessing)
    (hround : s.round = some r) (htimers : s.timers = [])
    (hgen : generateAllRounds companies TOTAL_ROUNDS draws = .ok rs) :
    (run companies s [.guess g, .quit, .start draws]).screen = .playing ∧
      (run companies s [.guess g, .quit, .start draws]).rounds = rs ∧
      (run companies s [.guess g, .quit, .start draws]).phase = .guessing ∧
      (run companies s [.guess g, .quit, .start draws]).score = 0 ∧
      (run companies s [.guess g, .quit, .start draws]).answers = [] ∧
      (run companies s [.guess g, .quit, .start draws]).timers =
        [{ g := g, correct := decide (g = r.answer) }] ∧
      (run companies s [.guess g, .quit, .start draws, .timeout]).guess = none ∧
      (run companies s [.guess g, .quit, .start draws, .timeout]).phase = .result ∧
      (run companies s [.guess g, .quit, .start draws, .timeout]).score =
        (if g = r.answer then 1 else 0) ∧
      (run companies s [.guess g, .quit, .start draws, .timeout]).answers =
        [{ guess := g, isCorrect := decide (g = r.answer) }] := by
  have hround1 : s.rounds[s.currentIdx]? = some r := hround
  by_cases hc : g = r.answer <;>
    simp [run, step, handleGuess, handleQuit, startGame, timerFires, GameState.round, hscreen,
      hphase, hround1, htimers, hgen, hc]

/-- Witness of C13, amended: a session on the pool of the companies with P/E 25
and 5, in which the guess "lower" is pending at the quit. -/
theorem pending_reveal_survives_quit_witness :
    (run poolAB startedAB [.guess .lower, .quit, .start (fun _ _ => drawKeepPe)]).phase =
        .guessing ∧
      (run poolAB startedAB
        [.guess .lower, .quit, .start (fun _ _ => drawKeepPe), .timeout]).phase = .result ∧
      (run poolAB startedAB
        [.guess .lower, .quit, .start (fun _ _ => drawKeepPe), .timeout]).score =
          (if Answer.lower = firstRoundAB.answer then 1 else 0) := by
  have h := pending_reveal_survives_quit poolAB startedAB .lower firstRoundAB
    (fun _ _ => drawKeepPe) startedAB.rounds startedAB_ready.1 startedAB_ready.2.1
    startedAB_ready.2.2.1 startedAB_ready.2.2.2.1 (by decide!)
  exact ⟨h.2.2.1, h.2.2.2.2.2.2.2.1, h.2.2.2.2.2.2.2.2.1⟩

/-! ## The `format` member of the metrics -/

theorem append_x_ne (str : String) : str ++ "x" ≠ "N/A" ∧ str ++ "x" ≠ "Negative" := by
  constructor <;> intro h <;>
    · have h1 := congrArg (fun t => t.data.reverse) h
      simp at h1

theorem append_percent_ne (str : String) : str ++ "%" ≠ "N/A" ∧ str ++ "%" ≠ "Negative" := by
  constructor <;> intro h <;>
    · have h1 := congrArg (fun t => t.data.reverse) h
      simp at h1

theorem format_num (toFixed : ℚ → Nat → String) (m : Metric) (q : ℚ) :
    Metric.format toFixed m (.num q) =
      match m.key with
      | .roe => .ok (toFixed (q * 100) 1 ++ "%")
      | .roa => .ok (toFixed (q * 100) 2 ++ "%")
      | .pe => if q < 0 then .ok "N/A" else .ok (toFixed q 1 ++ "x")
      | .pb => .ok (toFixed q 2 ++ "x")
      | .profitMargin => if q < 0 then .ok "Negative" else .ok (toFixed (q * 100) 1 ++ "%") := by
  unfold Metric.format
  cases m.key <;>
    simp [timesHundredToFixed, callToFixed, Val.toNumber, Val.isNegative_num]

/-- Counterexample to C19: the `format` of price-to-book raises a `TypeError` for
`null` and for `undefined`, and the `format` of price-to-earnings raises it for
`undefined`. -/
theorem format_throws_on_missing_value :
    pbMetric ∈ METRICS ∧ peMetric ∈ METRICS ∧
      Metric.format toFixedExact pbMetric .null = .error .typeError ∧
      Metric.format toFixedExact pbMetric .undefined = .error .typeError ∧
      Metric.format toFixedExact peMetric .undefined = .error .typeError := by
  decide

/-- C19, amended: for every metric and every number, the metric's `format` returns
a display string and does not throw; the `format` of ROE, ROA and profit margin
also returns a string for `null` and for `undefined`, and the `format` of P/E
returns `"N/A"` for `null`. -/
theorem format_returns_string (toFixed : ℚ → Nat → String) (m : Metric) :
    (∀ q : ℚ, ∃ str, Metric.format toFixed m (.num q) = .ok str) ∧
      (m.key = .roe ∨ m.key = .roa ∨ m.key = .profitMargin →
        ∀ v : Val, ∃ str, Metric.format toFixed m v = .ok str) ∧
      (m.key = .pe → Metric.format toFixed m .null = .ok "N/A") := by
  refine ⟨?_, ?_, ?_⟩
  · intro q
    rw [format_num]
    cases m.key <;> simp only
    · exact ⟨_, rfl⟩
    · exact ⟨_, rfl⟩
    · split_ifs <;> exact ⟨_, rfl⟩
    · exact ⟨_, rfl⟩
    · split_ifs <;> exact ⟨_, rfl⟩
  · intro hk v
    unfold Metric.format
    rcases hk with hk | hk | hk <;> rw [hk] <;> simp only
    · exact ⟨_, rfl⟩
    · exact ⟨_, rfl⟩
    · split_ifs <;> exact ⟨_, rfl⟩
  · intro hk
    unfold Metric.format
    rw [hk]
    simp

/-- Witness of C19, amended: the P/E format of 25 and the profit-margin format of
`undefined`. -/
theorem format_returns_string_witness :
    Metric.format toFixedExact peMetric (.num 25) = .ok "25.0x" ∧
      (∃ str, Metric.format toFixedExact peMetric (.num 25) = .ok str) ∧
      (∃ str, Metric.format toFixedExact (METRICS.get ⟨4, by decide⟩) .undefined = .ok str) :=
  ⟨by decide!, (format_returns_string toFixedExact peMetric).1 25,
    (format_returns_string toFixedExact (METRICS.get ⟨4, by decide⟩)).2.1
      (Or.inr (Or.inr rfl)) .undefined⟩

/-- C20: the `format` of P/E returns `"N/A"` for `null` and for every negative
number, and the `format` of profit margin returns `"Negative"` for every number
below zero; for a number that is not negative, neither format returns `"N/A"` or
`"Negative"`. -/
theorem format_guard_strings (toFixed : ℚ → Nat → String) (m : Metric) (q : ℚ) :
    (m.key = .pe →
      Metric.format toFixed m .null = .ok "N/A" ∧
      (q < 0 → Metric.format toFixed m (.num q) = .ok "N/A") ∧
      (0 ≤ q → Metric.format toFixed m (.num q) ≠ .ok "N/A" ∧
        Metric.format toFixed m (.num q) ≠ .ok "Negative")) ∧
    (m.key = .profitMargin →
      (q < 0 → Metric.format toFixed m (.num q) = .ok "Negative") ∧
      (0 ≤ q → Metric.format toFixed m (.num q) ≠ .ok "Negative" ∧
        Metric.format toFixed m (.num q) ≠ .ok "N/A")) := by
  constructor
  · intro hk
    refine ⟨by unfold Metric.format; rw [hk]; simp, ?_, ?_⟩
    · intro hq
      rw [format_num, hk]
      simp only [if_pos hq]
    · intro hq
      rw [format_num, hk]
      simp only [if_neg (not_lt.mpr hq), ne_eq, Except.ok.injEq]
      exact append_x_ne _
  · intro hk
    refine ⟨?_, ?_⟩
    · intro hq
      rw [format_num, hk]
      simp only [if_pos hq]
    · intro hq
      rw [format_num, hk]
      simp only [if_neg (not_lt.mpr hq), ne_eq, Except.ok.injEq]
      exact (append_percent_ne _).symm

/-- Witness of C20: the P/E format of -1 is `"N/A"`, the profit-margin format of
-1/20 is `"Negative"`, and the P/E format of 25 is neither. -/
theorem format_guard_strings_witness :
    Metric.format toFixedExact peMetric (.num (-1)) = .ok "N/A" ∧
      Metric.format toFixedExact (METRICS.get ⟨4, by decide⟩) (.num (-1 / 20)) =
        .ok "Negative" ∧
      Metric.format toFixedExact peMetric (.num 25) ≠ .ok "N/A" :=
  ⟨((format_guard_strings toFixedExact peMetric (-1)).1 rfl).2.1 (by norm_num),
    ((format_guard_strings toFixedExact (METRICS.get ⟨4, by decide⟩) (-1 / 20)).2 rfl).1
      (by norm_num),
    (((format_guard_strings toFixedExact peMetric 25).1 rfl).2.2 (by norm_num)).1⟩

/-! ## The stored `diff` of a round -/

theorem usable_diff_pos {a b : Company} {m : Metric} (h : Usable a b m) :
    ∃ va vb d : ℚ, a.get m.key = .num va ∧ b.get m.key = .num vb ∧
      (|va| + |vb|) / 2 ≠ 0 ∧ getMetricDiff a b m = .fin d ∧ 0 < d ∧ d ≤ 2 := by
  obtain ⟨va, vb, ha, hb, hne, hfin⟩ := getMetricDiff_of_usable h
  have hsub : 0 < |va - vb| := abs_pos.mpr (sub_ne_zero.mpr hne)
  have havg : 0 < (|va| + |vb|) / 2 := by
    have := abs_sub_le_two_mul_avg va vb
    linarith
  exact ⟨va, vb, _, ha, hb, havg.ne', hfin, div_pos hsub havg,
    (getMetricDiff_le_two a b m _ hfin).2⟩

/-- C24: for every round that `generateRound` returns (first loop or fallback), the
stored `diff` is finite with `0 < diff <= 2`: the two values differ, so the average
of their absolute values is not zero and no `Infinity` branch of `getMetricDiff` is
taken; the stored `diff` is never `Infinity`, whatever the upper bound of the band. -/
theorem generateRound_diff_finite (companies : List Company) (t : Nat) (draws : Nat → Draw)
    (r : Round) (h : generateRound companies t draws = .ok (some r)) :
    (∃ d : ℚ, r.diff = .fin d ∧ 0 < d ∧ d ≤ 2) ∧ r.diff ≠ .inf ∧
      ∃ va vb : ℚ, r.companyA.get r.metric.key = .num va ∧
        r.companyB.get r.metric.key = .num vb ∧ (|va| + |vb|) / 2 ≠ 0 := by
  obtain ⟨d0, hd, hdiff, -, -⟩ := generateRound_usable h
  obtain ⟨va, vb, d, ha, hb, havg, hfin, hpos, hle⟩ := usable_diff_pos (drawCandidate_some hd).2.2.2
  rw [hfin] at hdiff
  refine ⟨⟨d, hdiff, hpos, hle⟩, ?_, va, vb, ha, hb, havg⟩
  rw [hdiff]
  exact fun hinf => JsNum.noConfusion hinf

/-- Witness of C24: the round built from the companies with P/E 25 and 5 stores the
`diff` 4/3. -/
theorem generateRound_diff_finite_witness :
    generateRound poolAB 0 (fun _ => drawKeepPe) = .ok (some roundAB) ∧
      ∃ d : ℚ, roundAB.diff = .fin d ∧ 0 < d ∧ d ≤ 2 :=
  ⟨generateRound_poolAB,
    (generateRound_diff_finite poolAB 0 (fun _ => drawKeepPe) roundAB generateRound_poolAB).1⟩

/-! ## The highlighted winner -/

/-- C25: for every round that `generateRound` returns, the highlighted panel agrees
with the answer: company B is the winner (`aWins` is false) if and only if the
answer is "higher", company A is the winner (`aWins` is true) if and only if the
answer is "lower", and the round with its two companies swapped has the other
answer. -/
theorem generateRound_winner_matches_answer (companies : List Company) (t : Nat)
    (draws : Nat → Draw) (r : Round) (h : generateRound companies t draws = .ok (some r)) :
    (aWins r = false ↔ r.answer = .higher) ∧ (aWins r = true ↔ r.answer = .lower) ∧
      (withAnswer (swappedCandidate r)).answer = r.answer.flip := by
  obtain ⟨d, hd, -, -, hans⟩ := generateRound_usable h
  obtain ⟨va, vb, ha, hb, hne, -⟩ := (drawCandidate_some hd).2.2.2
  have hsw : (withAnswer (swappedCandidate r)).answer =
      if (r.companyA.get r.metric.key).gt (r.companyB.get r.metric.key) then .higher
      else .lower := rfl
  rw [hsw, hans]
  unfold aWins
  rw [ha, hb, Val.gt_num, Val.gt_num]
  rcases lt_or_gt_of_ne hne with hlt | hgt
  · have h1 : ¬ vb < va := not_lt.mpr hlt.le
    simp [hlt, h1, Answer.flip]
  · have h1 : ¬ va < vb := not_lt.mpr (le_of_lt hgt)
    have h2 : vb < va := hgt
    simp [h1, h2, Answer.flip]

/-- Witness of C25: in the round built from the companies with P/E 25 and 5,
company A is the winner and the answer is "lower". -/
theorem generateRound_winner_matches_answer_witness :
    generateRound poolAB 0 (fun _ => drawKeepPe) = .ok (some roundAB) ∧
      (aWins roundAB = true ↔ roundAB.answer = .lower) ∧
      (withAnswer (swappedCandidate roundAB)).answer = roundAB.answer.flip :=
  ⟨generateRound_poolAB,
    (generateRound_winner_matches_answer poolAB 0 (fun _ => drawKeepPe) roundAB
      generateRound_poolAB).2⟩

/-! ## A hard round outside the hard band -/

theorem generateRound_poolAB_hard :
    generateRound poolAB 2 (fun _ => drawKeepPe) = .ok (some hardRoundAB) := by
  decide!

/-- C23: for some pool and some outcome of the random draws, `generateRound` with
the hard tier 2 returns a non-null round whose `diff` is outside the hard band
`[0.01, 0.5]`, and `generateAllRounds` tags that round `difficulty = 2`: the pool of
the companies with P/E 25 and 5 gives `diff = 4/3` in rounds 8 to 10. -/
theorem hard_round_outside_band :
    thresholdOf 2 = { min := 1 / 100, max := .fin (1 / 2) } ∧
      ∃ (companies : List Company) (draws : Nat → Draw) (slotDraws : Nat → Nat → Draw)
        (r : Round) (rounds : List Round),
        generateRound companies 2 draws = .ok (some r) ∧ r.diff = .fin (4 / 3) ∧
        ¬ r.diff ≤ .fin (1 / 2) ∧ ¬ InBand (thresholdOf 2) r.diff ∧
        generateAllRounds companies 10 slotDraws = .ok rounds ∧
        ∀ i, 7 ≤ i → i < 10 →
          rounds[i]? = some { r with roundNum := some (i + 1), difficulty := some 2 } := by
  refine ⟨rfl, poolAB, fun _ => drawKeepPe, fun _ _ => drawKeepPe, hardRoundAB,
    (List.range 10).map (fun i => taggedRound i { roundAB with distractorCount := tierOfSlot i + 1 }),
    generateRound_poolAB_hard, rfl, by decide!, fun hin => absurd hin.2 (by decide!),
    by decide!, ?_⟩
  intro i h1 h2
  interval_cases i <;> rfl

/-! ## The candidate that the first loop keeps -/

theorem JsNum.le_same (x : JsNum) : x ≤ x := by
  cases x with
  | fin a => exact le_refl a
  | inf => exact trivial

theorem JsNum.le_chain {x y z : JsNum} (h1 : x ≤ y) (h2 : y ≤ z) : x ≤ z := by
  cases x with
  | inf =>
    cases y with
    | inf => exact h2
    | fin b => exact absurd h1 id
  | fin a =>
    cases z with
    | inf => exact trivial
    | fin c =>
      cases y with
      | inf => exact absurd h2 id
      | fin b =>
        have hab : a ≤ b := h1
        have hbc : b ≤ c := h2
        exact (hab.trans hbc : a ≤ c)

theorem JsNum.le_of_lt_js {x y : JsNum} (h : x < y) : x ≤ y := by
  cases x with
  | inf => exact absurd h id
  | fin a =>
    cases y with
    | inf => exact trivial
    | fin b =>
      have hab : a < b := h
      exact (hab.le : a ≤ b)

theorem JsNum.le_of_not_lt_js {x y : JsNum} (h : ¬ x < y) : y ≤ x := by
  cases x with
  | inf => exact JsNum.le_inf y
  | fin a =>
    cases y with
    | inf => exact absurd trivial h
    | fin b => exact (not_lt.mp (fun hab : a < b => h hab) : b ≤ a)

theorem firstPassStep_min {companies : List Company} {th : Threshold} {dc : Nat}
    {s s1 : SearchState} {d : Draw} (h : firstPassStep companies th dc s d = .ok s1) :
    s1.bestDiff ≤ s.bestDiff ∧
      ∀ a b m, drawCandidate companies d = .ok (some (a, b, m)) →
        InBand th (getMetricDiff a b m) →
        s1.bestDiff ≤ (getMetricDiff a b m).absSub ((th.min + th.max.minTwo) / 2) := by
  constructor
  · rcases firstPassStep_ok h with rfl | ⟨c, -, -, -, -, hlt⟩
    · exact JsNum.le_same _
    · exact JsNum.le_of_lt_js hlt
  · intro a b m hd hband
    unfold firstPassStep at h
    rw [hd] at h
    simp only at h
    have hband1 : JsNum.fin th.min ≤ getMetricDiff a b m ∧ getMetricDiff a b m ≤ th.max := hband
    rw [if_pos hband1] at h
    split_ifs at h with hlt
    · simp only [Except.ok.injEq] at h
      subst h
      exact JsNum.le_same _
    · simp only [Except.ok.injEq] at h
      subst h
      exact JsNum.le_of_not_lt_js hlt

theorem firstPass_min {companies : List Company} {th : Threshold} {dc : Nat}
    {draws : Nat → Draw} :
    ∀ (n k : Nat) (s s1 : SearchState), firstPass companies th dc draws n k s = .ok s1 →
      s1.bestDiff ≤ s.bestDiff ∧
        ∀ i, k ≤ i → i < k + n → ∀ a b m,
          drawCandidate companies (draws i) = .ok (some (a, b, m)) →
          InBand th (getMetricDiff a b m) →
          s1.bestDiff ≤ (getMetricDiff a b m).absSub ((th.min + th.max.minTwo) / 2) := by
  intro n
  induction n with
  | zero =>
    intro k s s1 h
    simp only [firstPass, Except.ok.injEq] at h
    subst h
    exact ⟨JsNum.le_same _, fun i h1 h2 => by omega⟩
  | succ n ih =>
    intro k s s1 h
    rw [firstPass] at h
    split at h
    · cases h
    · rename_i s2 h2
      obtain ⟨hle2, hmin2⟩ := firstPassStep_min h2
      obtain ⟨hle1, hmin1⟩ := ih (k + 1) s2 s1 h
      refine ⟨JsNum.le_chain hle1 hle2, ?_⟩
      intro i hi1 hi2 a b m hd hband
      by_cases hik : i = k
      · subst hik
        exact JsNum.le_chain hle1 (hmin2 a b m hd hband)
      · exact hmin1 i (by omega) (by omega) a b m hd hband

theorem firstPass_bestDiff {companies : List Company} {th : Threshold} {dc : Nat}
    {draws : Nat → Draw} :
    ∀ (n k : Nat) (s s1 : SearchState), firstPass companies th dc draws n k s = .ok s1 →
      (∀ c, s.best = some c → s.bestDiff = c.diff.absSub ((th.min + th.max.minTwo) / 2)) →
      ∀ c, s1.best = some c → s1.bestDiff = c.diff.absSub ((th.min + th.max.minTwo) / 2) := by
  intro n
  induction n with
  | zero =>
    intro k s s1 h hP
    simp only [firstPass, Except.ok.injEq] at h
    subst h
    exact hP
  | succ n ih =>
    intro k s s1 h hP
    rw [firstPass] at h
    split at h
    · cases h
    · rename_i s2 h2
      apply ih (k + 1) s2 s1 h
      rcases firstPassStep_ok h2 with rfl | ⟨c2, hc2, -, -, hbd, -⟩
      · exact hP
      · intro c hc
        rw [hc2] at hc
        cases hc
        exact hbd

/-- C21: for tier 0, 1 or 2 with its band and target `(min + min(max, 2)) / 2`, that
is 1.25, 0.575 and 0.255: when one of the 200 candidates of the first loop passes
the `continue` tests and is in the band, `generateRound` returns a round that is
one of the in-band candidates of the first loop, and its `|diff - target|` is the
least among all in-band candidates of the 200 attempts. -/
theorem generateRound_closest_to_target (companies : List Company) (t : Nat) (lo : ℚ)
    (hi : JsNum) (target : ℚ) (draws : Nat → Draw)
    (hband : (t, lo, hi, target) ∈
      [(0, (1 / 2 : ℚ), JsNum.inf, (5 / 4 : ℚ)), (1, 15 / 100, JsNum.fin 1, 23 / 40),
        (2, 1 / 100, JsNum.fin (1 / 2), 51 / 200)])
    (hcand : ∃ i, i < 200 ∧ ∃ a b m,
      drawCandidate companies (draws i) = .ok (some (a, b, m)) ∧
      JsNum.fin lo ≤ getMetricDiff a b m ∧ getMetricDiff a b m ≤ hi) :
    target = (lo + hi.minTwo) / 2 ∧
      ∃ (r : Round) (d : ℚ), generateRound companies t draws = .ok (some r) ∧
        r.diff = .fin d ∧
        (∃ j, j < 200 ∧
          drawCandidate companies (draws j) = .ok (some (r.companyA, r.companyB, r.metric)) ∧
          getMetricDiff r.companyA r.companyB r.metric = .fin d ∧
          JsNum.fin lo ≤ JsNum.fin d ∧ JsNum.fin d ≤ hi) ∧
        ∀ i a b m di, i < 200 →
          drawCandidate companies (draws i) = .ok (some (a, b, m)) →
          getMetricDiff a b m = .fin di → JsNum.fin lo ≤ JsNum.fin di → JsNum.fin di ≤ hi →
          |d - target| ≤ |di - target| := by
  have hth : thresholdOf t = { min := lo, max := hi } ∧ target = (lo + hi.minTwo) / 2 := by
    simp only [List.mem_cons, Prod.mk.injEq, List.mem_singleton, List.not_mem_nil, or_false]
      at hband
    rcases hband with ⟨rfl, rfl, rfl, rfl⟩ | ⟨rfl, rfl, rfl, rfl⟩ | ⟨rfl, rfl, rfl, rfl⟩
    · exact ⟨rfl, by norm_num [JsNum.minTwo]⟩
    · exact ⟨rfl, by norm_num [JsNum.minTwo]⟩
    · exact ⟨rfl, by norm_num [JsNum.minTwo]⟩
  obtain ⟨hth1, htarget⟩ := hth
  refine ⟨htarget, ?_⟩
  obtain ⟨i0, hi0, a0, b0, m0, hd0, hlo0, hhi0⟩ := hcand
  have hlen := length_of_drawCandidate_some hd0
  obtain ⟨s, hs⟩ := firstPass_total hlen (thresholdOf t) (distractorCountOf t) draws 200 0
    { best := none, bestDiff := .inf }
  have hsome : s.best ≠ none :=
    (firstPass_finds 200 0 _ s hs (fun _ => rfl)).2.2 i0 (Nat.zero_le i0) (by omega) a0 b0 m0 hd0
      (by rw [hth1]; exact ⟨hlo0, hhi0⟩)
  obtain ⟨c, hc⟩ := Option.ne_none_iff_exists'.mp hsome
  have hgen : generateRound companies t draws = .ok (some (withAnswer c)) := by
    unfold generateRound
    simp only
    rw [hs]
    simp only [hc]
  have hbd := firstPass_bestDiff 200 0 _ s hs (fun c0 h0 => by cases h0) c hc
  have hmin := (firstPass_min 200 0 _ s hs).2
  rw [hth1] at hbd hmin
  simp only at hbd hmin
  rw [← htarget] at hbd hmin
  rcases firstPass_best 200 0 _ s hs c hc with h0 | ⟨j, -, hj, ⟨hdj, hdiffj, -⟩, hinj⟩
  · cases h0
  · obtain ⟨va, vb, d, -, -, -, hfin, -, -⟩ := usable_diff_pos (drawCandidate_some hdj).2.2.2
    have hcd : c.diff = .fin d := by rw [hdiffj, hfin]
    rw [hth1, hcd] at hinj
    refine ⟨withAnswer c, d, hgen, hcd, ⟨j, by omega, hdj, hfin, hinj.1, hinj.2⟩, ?_⟩
    intro i a b m di hi200 hd hdi hlo hhi
    have hle := hmin i (Nat.zero_le i) (by omega) a b m hd (by rw [hdi]; exact ⟨hlo, hhi⟩)
    rw [hbd, hcd, hdi] at hle
    exact hle

/-- Witness of C21: tier 0 on the pool of the companies with P/E 25 and 5, where
every candidate has `diff = 4/3`. -/
theorem generateRound_closest_to_target_witness :
    ∃ (r : Round) (d : ℚ), generateRound poolAB 0 (fun _ => drawKeepPe) = .ok (some r) ∧
      r.diff = .fin d ∧
      ∀ i a b m di, i < 200 →
        drawCandidate poolAB drawKeepPe = .ok (some (a, b, m)) →
        getMetricDiff a b m = .fin di → JsNum.fin (1 / 2) ≤ JsNum.fin di →
        JsNum.fin di ≤ JsNum.inf → |d - 5 / 4| ≤ |di - 5 / 4| := by
  obtain ⟨-, r, d, h1, h2, -, h4⟩ :=
    generateRound_closest_to_target poolAB 0 (1 / 2) JsNum.inf (5 / 4) (fun _ => drawKeepPe)
      (List.mem_cons_self _ _)
      ⟨0, by decide, companyA25, companyB5, peMetric, by decide!, by decide!, by decide!⟩
  exact ⟨r, d, h1, h2, h4⟩

/-! ## The fallback loop -/

theorem drawCandidate_of_usable {companies : List Company} {d : Draw} {a b : Company}
    (h0 : (d.sortRandom companies)[0]? = some a) (h1 : (d.sortRandom companies)[1]? = some b)
    (hu : Usable a b (METRICS.get d.metricIdx)) :
    drawCandidate companies d = .ok (some (a, b, METRICS.get d.metricIdx)) := by
  obtain ⟨va, vb, ha, hb, hne, hneg⟩ := hu
  unfold drawCandidate
  simp only [h0, h1]
  rw [ha, hb]
  have c1 : ¬ ((Val.num va).isNullish || (Val.num vb).isNullish) = true := by
    simp [Val.isNullish]
  have c2 : ¬ (Val.num va = Val.num vb) := fun hv => hne (Val.num.inj hv)
  have c3 : ¬ ((METRICS.get d.metricIdx).key = .pe ∧
      ((Val.num va).isNegative || (Val.num vb).isNegative) = true) := by
    rintro ⟨hk, hn⟩
    obtain ⟨h2, h3⟩ := hneg (Or.inl hk)
    simp only [Val.isNegative_num, Bool.or_eq_true, decide_eq_true_eq] at hn
    rcases hn with hn | hn
    · exact absurd h2 (not_le.mpr hn)
    · exact absurd h3 (not_le.mpr hn)
  have c4 : ¬ ((METRICS.get d.metricIdx).key = .profitMargin ∧
      ((Val.num va).isNegative || (Val.num vb).isNegative) = true) := by
    rintro ⟨hk, hn⟩
    obtain ⟨h2, h3⟩ := hneg (Or.inr hk)
    simp only [Val.isNegative_num, Bool.or_eq_true, decide_eq_true_eq] at hn
    rcases hn with hn | hn
    · exact absurd h2 (not_le.mpr hn)
    · exact absurd h3 (not_le.mpr hn)
  rw [if_neg c1, if_neg c2, if_neg c3, if_neg c4]

theorem fallbackPass_first {companies : List Company} {dc : Nat} {draws : Nat → Draw}
    {a b : Company} {m : Metric} :
    ∀ (n k j : Nat), k ≤ j → j < k + n →
      (∀ i, k ≤ i → i < j → drawCandidate companies (draws i) = .ok none) →
      drawCandidate companies (draws j) = .ok (some (a, b, m)) →
      fallbackPass companies dc draws n k =
        .ok (some { companyA := a, companyB := b, metric := m,
                    diff := getMetricDiff a b m, distractorCount := dc }) := by
  intro n
  induction n with
  | zero => intro k j h1 h2; omega
  | succ n ih =>
    intro k j h1 h2 hskip hd
    rw [fallbackPass]
    by_cases hjk : j = k
    · subst hjk
      rw [hd]
    · rw [hskip k (le_refl k) (by omega)]
      exact ih (k + 1) j (by omega) (by omega) (fun i hi1 hi2 => hskip i (by omega) hi2) hd

theorem fallbackPass_none_iff {companies : List Company} {dc : Nat} {draws : Nat → Draw}
    (hlen : 2 ≤ companies.length) :
    ∀ (n k : Nat), fallbackPass companies dc draws n k = .ok none ↔
      ∀ i, k ≤ i → i < k + n → drawCandidate companies (draws i) = .ok none := by
  intro n
  induction n with
  | zero => intro k; exact ⟨fun _ i h1 h2 => by omega, fun _ => rfl⟩
  | succ n ih =>
    intro k
    obtain ⟨r, hr⟩ := drawCandidate_ok_of_long hlen (draws k)
    rw [fallbackPass, hr]
    rcases r with _ | ⟨a, b, m⟩
    · simp only
      rw [ih (k + 1)]
      constructor
      · intro h i hi1 hi2
        by_cases hik : i = k
        · rw [hik]; exact hr
        · exact h i (by omega) (by omega)
      · intro h i hi1 hi2
        exact h i (by omega) (by omega)
    · simp only
      constructor
      · intro h; cases h
      · intro h
        have := h k (le_refl k) (by omega)
        rw [hr] at this
        cases this

/-- C22: for a pool of at least two companies, any tier and any outcome of the random
draws in which no candidate of the 200 attempts of the first loop is in the band:
`generateRound` returns the first candidate among the draws 200 to 299 that passes
the `continue` tests (both values are numbers, they differ, and they are not
negative on P/E and profit margin), with the `diff` that `getMetricDiff` gives it,
whatever that is; and it returns `null` exactly when none of these 100 draws
passes the tests. -/
theorem generateRound_fallback (companies : List Company) (t : Nat) (draws : Nat → Draw)
    (hlen : 2 ≤ companies.length)
    (hnone : ∀ i a b m, i < 200 →
      drawCandidate companies (draws i) = .ok (some (a, b, m)) →
      ¬ (JsNum.fin (thresholdOf t).min ≤ getMetricDiff a b m ∧
        getMetricDiff a b m ≤ (thresholdOf t).max)) :
    (∀ j a b m, 200 ≤ j → j < 300 →
      drawCandidate companies (draws j) = .ok (some (a, b, m)) →
      (∀ i, 200 ≤ i → i < j → drawCandidate companies (draws i) = .ok none) →
      ∃ r, generateRound companies t draws = .ok (some r) ∧ r.companyA = a ∧
        r.companyB = b ∧ r.metric = m ∧ r.diff = getMetricDiff a b m) ∧
    (generateRound companies t draws = .ok none ↔
      ∀ j, 200 ≤ j → j < 300 → drawCandidate companies (draws j) = .ok none) ∧
    (∀ (d : Draw) (a b : Company) (m : Metric),
      drawCandidate companies d = .ok (some (a, b, m)) ↔
        ((d.sortRandom companies)[0]? = some a ∧ (d.sortRandom companies)[1]? = some b ∧
          m = METRICS.get d.metricIdx ∧
          ∃ va vb : ℚ, a.get m.key = .num va ∧ b.get m.key = .num vb ∧ va ≠ vb ∧
            (m.key = .pe ∨ m.key = .profitMargin → 0 ≤ va ∧ 0 ≤ vb))) := by
  obtain ⟨s, hs⟩ := firstPass_total hlen (thresholdOf t) (distractorCountOf t) draws 200 0
    { best := none, bestDiff := .inf }
  have hbest : s.best = none := by
    cases hb : s.best with
    | none => rfl
    | some c =>
      rcases firstPass_best 200 0 _ s hs c hb with h0 | ⟨i, -, hi, ⟨hd, hdiff, -⟩, hin⟩
      · cases h0
      · rw [hdiff] at hin
        exact absurd hin (hnone i _ _ _ (by omega) hd)
  have hgen : generateRound companies t draws =
      match fallbackPass companies (distractorCountOf t) draws 100 200 with
      | .error e => .error e
      | .ok none => .ok none
      | .ok (some best) => .ok (some (withAnswer best)) := by
    unfold generateRound
    simp only
    rw [hs]
    simp only [hbest]
  refine ⟨?_, ?_, ?_⟩
  · intro j a b m hj1 hj2 hd hskip
    rw [hgen, fallbackPass_first 100 200 j hj1 (by omega) hskip hd]
    exact ⟨_, rfl, rfl, rfl, rfl, rfl⟩
  · rw [hgen, ← fallbackPass_none_iff hlen 100 200]
    constructor
    · intro h
      cases hf : fallbackPass companies (distractorCountOf t) draws 100 200 with
      | error e => rw [hf] at h; cases h
      | ok o =>
        cases o with
        | none => rfl
        | some c => rw [hf] at h; cases h
    · intro h
      rw [h]
  · intro d a b m
    constructor
    · exact drawCandidate_some
    · rintro ⟨h0, h1, rfl, hu⟩
      exact drawCandidate_of_usable h0 h1 hu

/-- Witness of C22: the hard tier on the pool of the companies with P/E 25 and 5;
no candidate of the first loop is in the band `[0.01, 0.5]`, and the fallback loop
returns its first candidate, whose `diff` is 4/3. -/
theorem generateRound_fallback_witness :
    2 ≤ poolAB.length ∧
      ∃ r, generateRound poolAB 2 (fun _ => drawKeepPe) = .ok (some r) ∧
        r.companyA = companyA25 ∧ r.companyB = companyB5 ∧ r.metric = peMetric ∧
        r.diff = getMetricDiff companyA25 companyB5 peMetric := by
  have hd : drawCandidate poolAB drawKeepPe = .ok (some (companyA25, companyB5, peMetric)) := by
    decide!
  refine ⟨by decide, ?_⟩
  refine (generateRound_fallback poolAB 2 (fun _ => drawKeepPe) (by decide) ?_).1 200
    companyA25 companyB5 peMetric (le_refl 200) (by decide) hd (fun i h1 h2 => by omega)
  intro i a b m _ hdi hin
  have heq : (Except.ok (some (a, b, m)) : Except JsError (Option (Company × Company × Metric))) =
      .ok (some (companyA25, companyB5, peMetric)) := by rw [← hdi]; exact hd
  simp only [Except.ok.injEq, Option.some.injEq, Prod.mk.injEq] at heq
  obtain ⟨rfl, rfl, rfl⟩ := heq
  exact absurd hin.2 (by decide!)

/-! ## The double arithmetic at known values -/

theorem roundD_examples :
    roundD (twoPow (-1075)) = .fin 0 ∧ roundD tinyDouble = .fin tinyDouble ∧
      roundD (5 * twoPow (-1075)) = .fin (2 * twoPow (-1074)) ∧
      roundD (1 / 10) = .fin (3602879701896397 / 36028797018963968) ∧
      roundD (twoPow 1024 - twoPow 970) = .posInf ∧
      roundD (twoPow 1024 - twoPow 970 - 1) = .fin (twoPow 1024 - twoPow 971) := by
  decide!

theorem double_target_values :
    Dbl.div (Dbl.add (roundD (1 / 2)) (Dbl.min .posInf (.fin 2))) (.fin 2) = roundD (5 / 4) ∧
      Dbl.div (Dbl.add (roundD (15 / 100)) (Dbl.min (roundD 1) (.fin 2))) (.fin 2) =
        roundD (23 / 40) ∧
      Dbl.div (Dbl.add (roundD (1 / 100)) (Dbl.min (roundD (1 / 2)) (.fin 2))) (.fin 2) =
        roundD (51 / 200) ∧
      roundD (5 / 4) = .fin (5 / 4) := by
  decide!

theorem double_getMetricDiff_examples :
    Double.getMetricDiff companyA25 companyB5 peMetric = roundD (4 / 3) ∧
      Double.getMetricDiff { ticker := "A", roe := .num (3602879701896397 / 72057594037927936) }
        { ticker := "B", roe := .num (1080863910568919 / 36028797018963968) } roeMetric =
        .fin (1 / 2 + twoPow (-53)) ∧
      roundD (5 / 100) = .fin (3602879701896397 / 72057594037927936) ∧
      roundD (3 / 100) = .fin (1080863910568919 / 36028797018963968) := by
  decide!

theorem roundD_fin_lt {x q : ℚ} (h : roundD x = .fin q) : |q| < twoPow 1024 := by
  unfold roundD at h
  simp only at h
  split_ifs at h with h0 h1 h2 h3 <;> first
    | (cases h; done)
    | (cases h; rw [abs_zero]; decide!)
    | (cases h; rw [abs_neg]; exact not_le.mp h1)
    | (cases h; exact not_le.mp h1)

theorem roundD_ne_nan (x : ℚ) : roundD x ≠ .nan := by
  unfold roundD
  simp only
  split_ifs <;> exact fun h => Dbl.noConfusion h

theorem double_div_fin_lt {x y : Dbl} {q : ℚ} (h : Dbl.div x y = .fin q) :
    |q| < twoPow 1024 := by
  have hzero : |(0 : ℚ)| < twoPow 1024 := by rw [abs_zero]; decide!
  cases x <;> cases y <;> simp only [Dbl.div] at h <;> first
    | (cases h; done)
    | (cases h; exact hzero)
    | (split_ifs at h <;> first
        | (cases h; done)
        | exact roundD_fin_lt h)

theorem double_getMetricDiff_fin_lt {a b : Company} {m : Metric} {d : ℚ}
    (h : Double.getMetricDiff a b m = .fin d) : d < twoPow 1024 := by
  have hd : |d| < twoPow 1024 := by
    unfold Double.getMetricDiff at h
    split at h
    · simp only at h
      split_ifs at h
      exact double_div_fin_lt h
    · cases h
  exact lt_of_le_of_lt (le_abs_self d) hd

end StockGame
